import Mathlib

/-!
Shallow embedding of the xapcppcore-bufferutilities library
(src/src/buffer.cc, src/src/fetcher.cc, src/src/queue.cc).

Memory model: a `Store` is the heap, a list of allocations, each allocation a
list of byte values (naturals, < 256 for well-formed stores).  A `Buffer` is a
view: an allocation index (`m_buffer`), the offset of `m_bufferstart` inside
the allocation, and the logical length `m_bufferlength`.  The C++ classes use
`size_t` arithmetic; additions and subtractions whose overflow is observable
are modelled explicitly modulo `2 ^ 64`.

Exceptions are modelled with `Except Err`; every fallible operation returns
the error alongside the state as mutated up to the throw point, so the
statement order of checks and mutations in the C++ source is preserved.
-/

namespace Xap

/-- The modulus of `size_t` arithmetic (LP64). -/
def SIZE_W : Nat := 2 ^ 64

/-- `size_t` subtraction `a - b` with wraparound, for `a b < SIZE_W`. -/
def subW (a b : Nat) : Nat := (SIZE_W + a - b) % SIZE_W

/-- Error kinds.  The source raises `XAPCORE_BUF_ERROR_OVERFLOW` both for
out-of-range arguments and for end-of-stream cursor operations, and
`XAPCORE_BUF_ERROR_ALLOC` for allocation failures. -/
inductive Err where
  | overflow
  | alloc
deriving Repr, DecidableEq

/-- One heap allocation: the byte contents. -/
abbrev Alloc := List Nat

/-- The heap: allocations indexed by position. -/
abbrev Store := List Alloc

namespace Store

/-- Allocate a fresh block, returning the new store and the allocation id. -/
def allocate (st : Store) (data : Alloc) : Store × Nat :=
  (st ++ [data], st.length)

/-- Length of allocation `a` (0 if `a` is not a live allocation). -/
def allocLen (st : Store) (a : Nat) : Nat := (st.getD a []).length

/-- Read the byte at position `i` of allocation `a` (0 out of bounds). -/
def readByte (st : Store) (a i : Nat) : Nat := (st.getD a []).getD i 0

/-- Write the byte at position `i` of allocation `a` (no-op out of bounds). -/
def writeByte (st : Store) (a i : Nat) (v : Nat) : Store :=
  st.set a ((st.getD a []).set i v)

/-- Write a run of bytes starting at position `pos` of allocation `a`. -/
def writeList (st : Store) (a : Nat) (pos : Nat) : List Nat → Store
  | [] => st
  | v :: vs => writeList (st.writeByte a pos v) a (pos + 1) vs

end Store

/-- `xap::core::buffer::Buffer`: a view of a shared allocation
(`m_buffer` / `m_bufferstart` / `m_bufferlength`). -/
structure Buffer where
  alloc : Nat
  start : Nat
  len : Nat
deriving Repr, DecidableEq

namespace Buffer

/-- `Buffer::get_length`. -/
def get_length (b : Buffer) : Nat := b.len

/-- The byte `m_bufferstart[i]` (raw, unchecked access). -/
def byteAt (st : Store) (b : Buffer) (i : Nat) : Nat :=
  Store.readByte st b.alloc (b.start + i)

/-- The assignment `m_bufferstart[i] = v` (raw, unchecked access). -/
def setByteAt (st : Store) (b : Buffer) (i : Nat) (v : Nat) : Store :=
  Store.writeByte st b.alloc (b.start + i) v

/-- The observable content of the view: its `len` bytes in order. -/
def bytes (st : Store) (b : Buffer) : List Nat :=
  (List.range b.len).map fun i => b.byteAt st i

/-- Well-formedness of a view against a store: the allocation is live, the
window fits inside it, and the length is a representable `size_t`. -/
def wf (st : Store) (b : Buffer) : Prop :=
  b.alloc < st.length ∧ b.start + b.len ≤ st.allocLen b.alloc ∧ b.len < SIZE_W

instance (st : Store) (b : Buffer) : Decidable (b.wf st) := by
  unfold wf; infer_instance

/-- `Buffer::check_access`: `true` when the access is allowed.  The C++
source computes `offset + length` in `size_t`, so the sum wraps
modulo `2 ^ 64`. -/
def check_access (b : Buffer) (offset length : Nat) : Bool :=
  if length = 0 then true
  else if b.len ≤ offset then false
  else if b.len < (offset + length) % SIZE_W then false
  else true

/-- `Buffer::Buffer(length)`: allocate (1 byte when `length == 0`),
zero-filled.  Indeterminate bytes of `new` are modelled as 0. -/
def create (st : Store) (length : Nat) : Store × Buffer :=
  let data : Alloc := List.replicate (if length = 0 then 1 else length) 0
  let (st1, a) := st.allocate data
  (st1, ⟨a, 0, length⟩)

/-- `Buffer::Buffer(data, datalen)`: a fresh allocation holding a deep copy
of the raw range. -/
def fromData (st : Store) (data : List Nat) : Store × Buffer :=
  let (st1, a) := st.allocate data
  (st1, ⟨a, 0, data.length⟩)

/-- `Buffer::Buffer(const Buffer &source)`: member-wise copy, the allocation
is shared (no byte copy). -/
def copyCtor (source : Buffer) : Buffer :=
  ⟨source.alloc, source.start, source.len⟩

/-- `Buffer::slice(offset, length)`. -/
def slice2 (b : Buffer) (offset length : Nat) : Except Err Buffer :=
  if b.check_access offset length then
    .ok ⟨b.alloc, b.start + offset, length⟩
  else .error .overflow

/-- `Buffer::slice(offset)`: delegates with `get_length() - offset` computed
in `size_t`. -/
def slice1 (b : Buffer) (offset : Nat) : Except Err Buffer :=
  b.slice2 offset (subW b.len offset)

/-- `memcpy` of `n` bytes from `src + soff` into `dst + doff` (byte lists;
the source range is read out first, as non-overlapping `memcpy`). -/
def memcpyB (st : Store) (dst : Buffer) (doff : Nat) (src : Buffer)
    (soff : Nat) (n : Nat) : Store :=
  let srcBytes := (((st.getD src.alloc []).drop (src.start + soff)).take n)
  st.writeList dst.alloc (dst.start + doff) srcBytes

/-- `Buffer::copy(destination)` (no offsets, `noexcept`). -/
def copy0 (st : Store) (src dst : Buffer) : Nat × Store :=
  let copy_len := min src.len dst.len
  (copy_len, memcpyB st dst 0 src 0 copy_len)

/-- `Buffer::copy(destination, destination_offset)`. -/
def copy1 (st : Store) (src dst : Buffer) (destination_offset : Nat) :
    Except Err Nat × Store :=
  if dst.len < destination_offset then (.error .overflow, st)
  else
    let dst_len := dst.len - destination_offset
    let copy_len := min src.len dst_len
    (.ok copy_len, memcpyB st dst destination_offset src 0 copy_len)

/-- `Buffer::copy(destination, destination_offset, src_offset)`. -/
def copy2 (st : Store) (src dst : Buffer) (destination_offset src_offset : Nat) :
    Except Err Nat × Store :=
  if dst.len < destination_offset then (.error .overflow, st)
  else if src.len < src_offset then (.error .overflow, st)
  else
    let dst_len := dst.len - destination_offset
    let src_len := src.len - src_offset
    let copy_len := min src_len dst_len
    (.ok copy_len, memcpyB st dst destination_offset src src_offset copy_len)

/-- `Buffer::fill(value)` (`noexcept`, whole view). -/
def fill0 (st : Store) (b : Buffer) (value : Nat) : Store :=
  st.writeList b.alloc b.start (List.replicate b.len value)

/-- `Buffer::fill(value, offset, length)`. -/
def fill3 (st : Store) (b : Buffer) (value offset length : Nat) :
    Except Err Unit × Store :=
  if b.check_access offset length then
    (.ok (), st.writeList b.alloc (b.start + offset) (List.replicate length value))
  else (.error .overflow, st)

/-- `Buffer::operator[]` / `Buffer::read_uint8` (read side). -/
def read_uint8 (st : Store) (b : Buffer) (offset : Nat) :
    Except Err Nat × Store :=
  if b.check_access offset 1 then (.ok (b.byteAt st offset), st)
  else (.error .overflow, st)

/-- `Buffer::write_uint8`. -/
def write_uint8 (st : Store) (b : Buffer) (value offset : Nat) :
    Except Err Unit × Store :=
  if b.check_access offset 1 then (.ok (), b.setByteAt st offset value)
  else (.error .overflow, st)

/-- `Buffer::read_uint16_be`. -/
def read_uint16_be (st : Store) (b : Buffer) (offset : Nat) :
    Except Err Nat × Store :=
  if b.check_access offset 2 then
    (.ok ((b.byteAt st (offset + 0) <<< 8) |||
          (b.byteAt st (offset + 1))), st)
  else (.error .overflow, st)

/-- `Buffer::read_uint16_le`. -/
def read_uint16_le (st : Store) (b : Buffer) (offset : Nat) :
    Except Err Nat × Store :=
  if b.check_access offset 2 then
    (.ok ((b.byteAt st (offset + 1) <<< 8) |||
          (b.byteAt st (offset + 0))), st)
  else (.error .overflow, st)

/-- `Buffer::read_uint32_be`. -/
def read_uint32_be (st : Store) (b : Buffer) (offset : Nat) :
    Except Err Nat × Store :=
  if b.check_access offset 4 then
    (.ok ((b.byteAt st (offset + 0) <<< 24) |||
          (b.byteAt st (offset + 1) <<< 16) |||
          (b.byteAt st (offset + 2) <<< 8) |||
          (b.byteAt st (offset + 3))), st)
  else (.error .overflow, st)

/-- `Buffer::read_uint32_le`. -/
def read_uint32_le (st : Store) (b : Buffer) (offset : Nat) :
    Except Err Nat × Store :=
  if b.check_access offset 4 then
    (.ok ((b.byteAt st (offset + 3) <<< 24) |||
          (b.byteAt st (offset + 2) <<< 16) |||
          (b.byteAt st (offset + 1) <<< 8) |||
          (b.byteAt st (offset + 0))), st)
  else (.error .overflow, st)

/-- `Buffer::read_uint64_be`. -/
def read_uint64_be (st : Store) (b : Buffer) (offset : Nat) :
    Except Err Nat × Store :=
  if b.check_access offset 8 then
    (.ok ((b.byteAt st (offset + 0) <<< 56) |||
          (b.byteAt st (offset + 1) <<< 48) |||
          (b.byteAt st (offset + 2) <<< 40) |||
          (b.byteAt st (offset + 3) <<< 32) |||
          (b.byteAt st (offset + 4) <<< 24) |||
          (b.byteAt st (offset + 5) <<< 16) |||
          (b.byteAt st (offset + 6) <<< 8) |||
          (b.byteAt st (offset + 7))), st)
  else (.error .overflow, st)

/-- `Buffer::read_uint64_le`. -/
def read_uint64_le (st : Store) (b : Buffer) (offset : Nat) :
    Except Err Nat × Store :=
  if b.check_access offset 8 then
    (.ok ((b.byteAt st (offset + 7) <<< 56) |||
          (b.byteAt st (offset + 6) <<< 48) |||
          (b.byteAt st (offset + 5) <<< 40) |||
          (b.byteAt st (offset + 4) <<< 32) |||
          (b.byteAt st (offset + 3) <<< 24) |||
          (b.byteAt st (offset + 2) <<< 16) |||
          (b.byteAt st (offset + 1) <<< 8) |||
          (b.byteAt st (offset + 0))), st)
  else (.error .overflow, st)

/-- `Buffer::write_uint16_be`. -/
def write_uint16_be (st : Store) (b : Buffer) (value offset : Nat) :
    Except Err Unit × Store :=
  if b.check_access offset 2 then
    let st0 := b.setByteAt st (offset + 0) ((value &&& 0xFF00) >>> 8)
    let st1 := b.setByteAt st0 (offset + 1) (value &&& 0x00FF)
    (.ok (), st1)
  else (.error .overflow, st)

/-- `Buffer::write_uint16_le`. -/
def write_uint16_le (st : Store) (b : Buffer) (value offset : Nat) :
    Except Err Unit × Store :=
  if b.check_access offset 2 then
    let st0 := b.setByteAt st (offset + 1) ((value &&& 0xFF00) >>> 8)
    let st1 := b.setByteAt st0 (offset + 0) (value &&& 0x00FF)
    (.ok (), st1)
  else (.error .overflow, st)

/-- `Buffer::write_uint32_be`. -/
def write_uint32_be (st : Store) (b : Buffer) (value offset : Nat) :
    Except Err Unit × Store :=
  if b.check_access offset 4 then
    let st0 := b.setByteAt st (offset + 0) ((value &&& 0xFF000000) >>> 24)
    let st1 := b.setByteAt st0 (offset + 1) ((value &&& 0x00FF0000) >>> 16)
    let st2 := b.setByteAt st1 (offset + 2) ((value &&& 0x0000FF00) >>> 8)
    let st3 := b.setByteAt st2 (offset + 3) (value &&& 0x000000FF)
    (.ok (), st3)
  else (.error .overflow, st)

/-- `Buffer::write_uint32_le`. -/
def write_uint32_le (st : Store) (b : Buffer) (value offset : Nat) :
    Except Err Unit × Store :=
  if b.check_access offset 4 then
    let st0 := b.setByteAt st (offset + 3) ((value &&& 0xFF000000) >>> 24)
    let st1 := b.setByteAt st0 (offset + 2) ((value &&& 0x00FF0000) >>> 16)
    let st2 := b.setByteAt st1 (offset + 1) ((value &&& 0x0000FF00) >>> 8)
    let st3 := b.setByteAt st2 (offset + 0) (value &&& 0x000000FF)
    (.ok (), st3)
  else (.error .overflow, st)

/-- `Buffer::write_uint64_be`. -/
def write_uint64_be (st : Store) (b : Buffer) (value offset : Nat) :
    Except Err Unit × Store :=
  if b.check_access offset 8 then
    let st0 := b.setByteAt st (offset + 0) ((value &&& 0xFF00000000000000) >>> 56)
    let st1 := b.setByteAt st0 (offset + 1) ((value &&& 0x00FF000000000000) >>> 48)
    let st2 := b.setByteAt st1 (offset + 2) ((value &&& 0x0000FF0000000000) >>> 40)
    let st3 := b.setByteAt st2 (offset + 3) ((value &&& 0x000000FF00000000) >>> 32)
    let st4 := b.setByteAt st3 (offset + 4) ((value &&& 0x00000000FF000000) >>> 24)
    let st5 := b.setByteAt st4 (offset + 5) ((value &&& 0x0000000000FF0000) >>> 16)
    let st6 := b.setByteAt st5 (offset + 6) ((value &&& 0x000000000000FF00) >>> 8)
    let st7 := b.setByteAt st6 (offset + 7) (value &&& 0x00000000000000FF)
    (.ok (), st7)
  else (.error .overflow, st)

/-- `Buffer::write_uint64_le`. -/
def write_uint64_le (st : Store) (b : Buffer) (value offset : Nat) :
    Except Err Unit × Store :=
  if b.check_access offset 8 then
    let st0 := b.setByteAt st (offset + 7) ((value &&& 0xFF00000000000000) >>> 56)
    let st1 := b.setByteAt st0 (offset + 6) ((value &&& 0x00FF000000000000) >>> 48)
    let st2 := b.setByteAt st1 (offset + 5) ((value &&& 0x0000FF0000000000) >>> 40)
    let st3 := b.setByteAt st2 (offset + 4) ((value &&& 0x000000FF00000000) >>> 32)
    let st4 := b.setByteAt st3 (offset + 3) ((value &&& 0x00000000FF000000) >>> 24)
    let st5 := b.setByteAt st4 (offset + 2) ((value &&& 0x0000000000FF0000) >>> 16)
    let st6 := b.setByteAt st5 (offset + 1) ((value &&& 0x000000000000FF00) >>> 8)
    let st7 := b.setByteAt st6 (offset + 0) (value &&& 0x00000000000000FF)
    (.ok (), st7)
  else (.error .overflow, st)

end Buffer

/-- `xap::core::buffer::BufferFetcher` (the byte cursor).  `m_buffer` points
to a `Buffer` object built with the `Buffer` copy constructor, so it holds
the same allocation / start / length as the source buffer (the allocation is
shared, not deep-copied); `m_buffer_length` caches `get_length()` at
construction. -/
structure Fetcher where
  buf : Buffer
  blen : Nat
  cursor : Nat
deriving Repr, DecidableEq

namespace Fetcher

/-- `BufferFetcher::BufferFetcher(const Buffer &buffer)`: wraps
`new Buffer(buffer)` (member-wise copy of the view, shared allocation),
caches the length, cursor at 0. -/
def ofBuffer (buffer : Buffer) : Fetcher :=
  ⟨Buffer.copyCtor buffer, (Buffer.copyCtor buffer).get_length, 0⟩

/-- `BufferFetcher::BufferFetcher(const BufferFetcher &src)`: member-wise
copy; the pointed-to `Buffer` object is shared. -/
def copyCtor (src : Fetcher) : Fetcher :=
  ⟨src.buf, src.blen, src.cursor⟩

/-- `BufferFetcher::replace(new_buffer)`: repoint to a fresh member-wise
copy of the new buffer, cursor reset to 0. -/
def replace (_f : Fetcher) (new_buffer : Buffer) : Fetcher :=
  ⟨Buffer.copyCtor new_buffer, (Buffer.copyCtor new_buffer).get_length, 0⟩

/-- `BufferFetcher::is_end`. -/
def is_end (f : Fetcher) : Bool := f.cursor == f.blen

/-- `BufferFetcher::reset`. -/
def reset (f : Fetcher) : Fetcher := { f with cursor := 0 }

/-- `BufferFetcher::get_remaining_size`. -/
def get_remaining_size (f : Fetcher) : Nat := f.blen - f.cursor

/-- `BufferFetcher::fetch`: `read_uint8(m_cursor++)` — the post-increment is
sequenced before the call, so the cursor advances even if the read throws. -/
def fetch (st : Store) (f : Fetcher) : Except Err Nat × Store × Fetcher :=
  if f.is_end then (.error .overflow, st, f)
  else
    let f1 := { f with cursor := f.cursor + 1 }
    match Buffer.read_uint8 st f.buf f.cursor with
    | (.ok v, st1) => (.ok v, st1, f1)
    | (.error e, st1) => (.error e, st1, f1)

/-- `BufferFetcher::fetch_to(destination, destination_offset)`. -/
def fetch_to (st : Store) (f : Fetcher) (destination : Buffer)
    (destination_offset : Nat) : Except Err Nat × Store × Fetcher :=
  if destination.get_length = 0 then (.ok 0, st, f)
  else if f.is_end then (.error .overflow, st, f)
  else
    match Buffer.copy2 st f.buf destination destination_offset f.cursor with
    | (.ok copy_len, st1) => (.ok copy_len, st1, { f with cursor := f.cursor + copy_len })
    | (.error e, st1) => (.error e, st1, f)

/-- `BufferFetcher::fetch_all`: a view of the unconsumed bytes (fresh
zero-length buffer when already at end), cursor advanced to the end. -/
def fetch_all (st : Store) (f : Fetcher) : Except Err Buffer × Store × Fetcher :=
  if f.is_end then
    let (st1, b0) := Buffer.create st 0
    (.ok b0, st1, f)
  else
    match Buffer.slice1 f.buf f.cursor with
    | .ok out => (.ok out, st, { f with cursor := f.cursor + out.get_length })
    | .error e => (.error e, st, f)

/-- `BufferFetcher::fetch_bytes(count)`. -/
def fetch_bytes (st : Store) (f : Fetcher) (count : Nat) :
    Except Err Buffer × Store × Fetcher :=
  if count = 0 then
    let (st1, b0) := Buffer.create st 0
    (.ok b0, st1, f)
  else if f.get_remaining_size < count then (.error .overflow, st, f)
  else
    match Buffer.slice2 f.buf f.cursor count with
    | .ok out => (.ok out, st, { f with cursor := f.cursor + count })
    | .error e => (.error e, st, f)

/-- `BufferFetcher::skip(count)`. -/
def skip (st : Store) (f : Fetcher) (count : Nat) :
    Except Err Unit × Store × Fetcher :=
  if count = 0 then (.ok (), st, f)
  else if f.is_end then (.error .overflow, st, f)
  else if f.get_remaining_size < count then (.error .overflow, st, f)
  else (.ok (), st, { f with cursor := f.cursor + count })

/-- The unconsumed bytes of the cursor, as observed through the store. -/
def remBytes (st : Store) (f : Fetcher) : List Nat :=
  (Buffer.bytes st f.buf).drop f.cursor

/-- Well-formedness of a fetcher against a store: the cached length matches
the buffer, the cursor is inside it, and the buffer is well-formed. -/
def wfQ (st : Store) (f : Fetcher) : Prop :=
  f.blen = f.buf.len ∧ f.cursor ≤ f.blen ∧ f.buf.wf st

instance (st : Store) (f : Fetcher) : Decidable (f.wfQ st) := by
  unfold wfQ; infer_instance

end Fetcher

/-- `xap::core::buffer::BufferQueue`. -/
structure BufferQueue where
  remaining : Nat
  queue : List Fetcher
deriving Repr, DecidableEq

namespace BufferQueue

/-- `BufferQueue::BufferQueue()`. -/
def empty : BufferQueue := ⟨0, []⟩

/-- `BufferQueue::push(data)`: no-op for a zero-length buffer, otherwise
appends `BufferFetcher(data)` (which shares the allocation of `data`). -/
def push (st : Store) (q : BufferQueue) (data : Buffer) : Store × BufferQueue :=
  if data.get_length = 0 then (st, q)
  else (st, ⟨q.remaining + data.get_length, q.queue ++ [Fetcher.ofBuffer data]⟩)

/-- The `while (cursor < size)` loop of `BufferQueue::pop`.  The
`m_queue.begin()` dereference on an empty queue is C++ undefined behaviour;
it is modelled as terminating with the loop state (unreachable whenever
`size` is at most the actual remaining byte count). -/
def popLoop (res : Buffer) (size : Nat) :
    Store → List Fetcher → Nat → Except Err Unit × Store × List Fetcher
  | st, fs, cursor =>
    if size ≤ cursor then (.ok (), st, fs)
    else
      match fs with
      | [] => (.ok (), st, [])
      | f :: rest =>
        let needed := size - cursor
        let fetcher_remaining := f.get_remaining_size
        if fetcher_remaining ≤ needed then
          match Fetcher.fetch_all st f with
          | (.ok chunk, st1, _) =>
            match Buffer.copy1 st1 chunk res cursor with
            | (.ok _, st2) => popLoop res size st2 rest (cursor + fetcher_remaining)
            | (.error e, st2) => (.error e, st2, f :: rest)
          | (.error e, st1, f1) => (.error e, st1, f1 :: rest)
        else
          match Fetcher.fetch_bytes st f needed with
          | (.ok chunk, st1, f1) =>
            match Buffer.copy1 st1 chunk res cursor with
            | (.ok _, st2) => popLoop res size st2 (f1 :: rest) (cursor + needed)
            | (.error e, st2) => (.error e, st2, f1 :: rest)
          | (.error e, st1, f1) => (.error e, st1, f1 :: rest)
  termination_by _ fs cursor => (fs.length, size - cursor)
  decreasing_by
    · simp_wf; omega
    · simp_wf; omega

/-- `BufferQueue::pop(size)`. -/
def pop (st : Store) (q : BufferQueue) (size : Nat) :
    Except Err Buffer × Store × BufferQueue :=
  if q.remaining < size then (.error .overflow, st, q)
  else
    let (st1, buffer) := Buffer.create st size
    match popLoop buffer size st1 q.queue 0 with
    | (.ok _, st2, rest) => (.ok buffer, st2, ⟨q.remaining - size, rest⟩)
    | (.error e, st2, rest) => (.error e, st2, ⟨q.remaining, rest⟩)

/-- The `while (!m_queue.empty())` loop of `BufferQueue::pop_all`. -/
def popAllLoop (out : Buffer) :
    Store → List Fetcher → Nat → Except Err Unit × Store × List Fetcher
  | st, [], _ => (.ok (), st, [])
  | st, f :: rest, cursor =>
    let fetcher_remaining := f.get_remaining_size
    match Fetcher.fetch_all st f with
    | (.ok chunk, st1, _) =>
      match Buffer.copy1 st1 chunk out cursor with
      | (.ok _, st2) => popAllLoop out st2 rest (cursor + fetcher_remaining)
      | (.error e, st2) => (.error e, st2, f :: rest)
    | (.error e, st1, f1) => (.error e, st1, f1 :: rest)

/-- `BufferQueue::pop_all()`. -/
def pop_all (st : Store) (q : BufferQueue) :
    Except Err Buffer × Store × BufferQueue :=
  let (st1, out) := Buffer.create st q.remaining
  match popAllLoop out st1 q.queue 0 with
  | (.ok _, st2, rest) => (.ok out, st2, ⟨0, rest⟩)
  | (.error e, st2, rest) => (.error e, st2, ⟨q.remaining, rest⟩)

/-- `BufferQueue::get_remaining_size`. -/
def get_remaining_size (q : BufferQueue) : Nat := q.remaining

/-- Sum of the per-segment remaining sizes. -/
def sumRem (fs : List Fetcher) : Nat :=
  (fs.map Fetcher.get_remaining_size).sum

/-- The logical byte stream of a segment list. -/
def segsBytes (st : Store) (fs : List Fetcher) : List Nat :=
  (fs.map (Fetcher.remBytes st)).flatten

/-- The logical byte stream of the queue. -/
def queueBytes (st : Store) (q : BufferQueue) : List Nat :=
  segsBytes st q.queue

/-- The queue invariant: `m_remaining` equals the actual remaining byte
count, and every segment is non-empty and well-formed. -/
def QInv (st : Store) (q : BufferQueue) : Prop :=
  q.remaining = sumRem q.queue ∧
  ∀ f ∈ q.queue, f.wfQ st ∧ 0 < f.get_remaining_size

instance (st : Store) (q : BufferQueue) : Decidable (QInv st q) := by
  unfold QInv; infer_instance

/-- Queue states reachable from the empty queue by any interleaving of
`push`, `pop` and `pop_all` calls, allowing fresh allocations (new buffers
created by the caller) between calls.  Pushed buffers are well-formed views
of live allocations, as every C++ `Buffer` is. -/
inductive Reach : Store → BufferQueue → Prop where
  | init (st : Store) : Reach st empty
  | ext (a : Alloc) {st : Store} {q : BufferQueue} :
      Reach st q → Reach (st ++ [a]) q
  | push (data : Buffer) {st : Store} {q : BufferQueue} :
      Reach st q → data.wf st →
      Reach (BufferQueue.push st q data).1 (BufferQueue.push st q data).2
  | pop (size : Nat) {st : Store} {q : BufferQueue} :
      Reach st q →
      Reach (BufferQueue.pop st q size).2.1 (BufferQueue.pop st q size).2.2
  | pop_all {st : Store} {q : BufferQueue} :
      Reach st q →
      Reach (BufferQueue.pop_all st q).2.1 (BufferQueue.pop_all st q).2.2

end BufferQueue

/-- Specification-side definition (from the claim wording, not the source):
the standard big-endian byte order of a `w`-byte unsigned integer. -/
def beBytesSpec (w v : Nat) : List Nat :=
  (List.range w).map fun k => v / 2 ^ (8 * (w - 1 - k)) % 256

/-- Specification-side definition (from the claim wording, not the source):
the standard little-endian byte order of a `w`-byte unsigned integer. -/
def leBytesSpec (w v : Nat) : List Nat :=
  (List.range w).map fun k => v / 2 ^ (8 * k) % 256

/-- Specification-side recap of the queue effect of `pop`: drain `n` bytes
from the front, removing every segment it exhausts and advancing the cursor
of a partially drained head. -/
def advanceSegs : List Fetcher → Nat → List Fetcher
  | fs, 0 => fs
  | [], _ + 1 => []
  | f :: rest, n + 1 =>
    if f.get_remaining_size ≤ n + 1 then
      advanceSegs rest (n + 1 - f.get_remaining_size)
    else
      { f with cursor := f.cursor + (n + 1) } :: rest

/-!  ## Generic list lemmas -/

theorem getD_set_self {α : Type} (l : List α) (i : Nat) (v d : α)
    (h : i < l.length) : (l.set i v).getD i d = v := by
  simp [List.getElem?_set_self h]

theorem getD_set_ne {α : Type} (l : List α) {i j : Nat} (v d : α)
    (h : j ≠ i) : (l.set i v).getD j d = l.getD j d := by
  simp [List.getElem?_set_ne (by omega : i ≠ j)]

theorem getD_append_left {α : Type} (l₁ l₂ : List α) (i : Nat) (d : α)
    (h : i < l₁.length) : (l₁ ++ l₂).getD i d = l₁.getD i d := by
  simp [List.getElem?_append_left h]

theorem getD_drop_take {α : Type} (l : List α) (s n i : Nat) (d : α)
    (hi : i < n) : ((l.drop s).take n).getD i d = l.getD (s + i) d := by
  simp [List.getElem?_take_of_lt hi, List.getElem?_drop]

namespace Store

theorem length_writeByte (st : Store) (a i v : Nat) :
    (st.writeByte a i v).length = st.length := by
  simp [writeByte]

theorem allocLen_writeByte (st : Store) (a i v a' : Nat) :
    (st.writeByte a i v).allocLen a' = st.allocLen a' := by
  unfold writeByte allocLen
  by_cases ha : a' = a
  · subst ha
    by_cases hlt : a' < st.length
    · rw [getD_set_self _ _ _ _ hlt, List.length_set]
    · rw [List.set_eq_of_length_le (by omega)]
  · rw [getD_set_ne _ _ _ ha]

theorem readByte_writeByte_self (st : Store) (a i v : Nat)
    (ha : a < st.length) (hi : i < st.allocLen a) :
    (st.writeByte a i v).readByte a i = v := by
  unfold writeByte readByte
  rw [getD_set_self _ _ _ _ ha, getD_set_self _ _ _ _ hi]

theorem readByte_writeByte_ne (st : Store) (a i v a' j : Nat)
    (h : a' ≠ a ∨ j ≠ i) :
    (st.writeByte a i v).readByte a' j = st.readByte a' j := by
  unfold writeByte readByte
  by_cases ha : a' = a
  · subst ha
    have hj : j ≠ i := h.resolve_left (by simp)
    by_cases hlt : a' < st.length
    · rw [getD_set_self _ _ _ _ hlt, getD_set_ne _ _ _ hj]
    · rw [List.set_eq_of_length_le (by omega)]
  · rw [getD_set_ne _ _ _ ha]

theorem length_writeList (st : Store) (a pos : Nat) (vs : List Nat) :
    (st.writeList a pos vs).length = st.length := by
  induction vs generalizing st pos with
  | nil => rfl
  | cons v vs ih => rw [writeList, ih, length_writeByte]

theorem allocLen_writeList (st : Store) (a pos : Nat) (vs : List Nat)
    (a' : Nat) : (st.writeList a pos vs).allocLen a' = st.allocLen a' := by
  induction vs generalizing st pos with
  | nil => rfl
  | cons v vs ih => rw [writeList, ih, allocLen_writeByte]

theorem readByte_writeList_outside (st : Store) (a pos : Nat) (vs : List Nat)
    (a' j : Nat) (h : a' ≠ a ∨ j < pos ∨ pos + vs.length ≤ j) :
    (st.writeList a pos vs).readByte a' j = st.readByte a' j := by
  induction vs generalizing st pos with
  | nil => rfl
  | cons v vs ih =>
    rw [writeList, ih _ _ _, readByte_writeByte_ne]
    · rcases h with h | h | h
      · exact Or.inl h
      · exact Or.inr (by omega)
      · exact Or.inr (by simp at h; omega)
    · rcases h with h | h | h
      · exact Or.inl h
      · exact Or.inr (Or.inl (by omega))
      · exact Or.inr (Or.inr (by simp at h; omega))

theorem readByte_writeList_inside (st : Store) (a pos : Nat) (vs : List Nat)
    (j : Nat) (ha : a < st.length) (h1 : pos ≤ j) (h2 : j - pos < vs.length)
    (h3 : j < st.allocLen a) :
    (st.writeList a pos vs).readByte a j = vs.getD (j - pos) 0 := by
  induction vs generalizing st pos with
  | nil => simp at h2
  | cons v vs ih =>
    rw [writeList]
    by_cases hj : j = pos
    · subst hj
      rw [readByte_writeList_outside _ _ _ _ _ _ (Or.inr (Or.inl (by omega))),
        readByte_writeByte_self _ _ _ _ ha h3]
      simp
    · have h1' : pos + 1 ≤ j := by omega
      rw [ih _ _ (by rw [length_writeByte]; exact ha) h1'
          (by simp at h2 ⊢; omega) (by rw [allocLen_writeByte]; exact h3)]
      have : j - pos = (j - (pos + 1)) + 1 := by omega
      simp [this]

theorem readByte_append_left (st : Store) (x : Alloc) (a i : Nat)
    (h : a < st.length) : (st ++ [x]).readByte a i = st.readByte a i := by
  unfold readByte
  rw [getD_append_left _ _ _ _ h]

theorem allocLen_append_left (st : Store) (x : Alloc) (a : Nat)
    (h : a < st.length) : (st ++ [x]).allocLen a = st.allocLen a := by
  unfold allocLen
  rw [getD_append_left _ _ _ _ h]

end Store

namespace Buffer

theorem bytes_length (st : Store) (b : Buffer) : (b.bytes st).length = b.len := by
  simp [bytes]

theorem bytes_getD (st : Store) (b : Buffer) (i : Nat) (h : i < b.len) :
    (b.bytes st).getD i 0 = b.byteAt st i := by
  simp [bytes, List.getElem?_range h]

theorem check_access_true_of (b : Buffer) (offset length : Nat)
    (h : offset + length ≤ b.len) (hW : b.len < SIZE_W) :
    b.check_access offset length = true := by
  unfold check_access
  by_cases h0 : length = 0
  · simp [h0]
  · have h2 : (offset + length) % SIZE_W = offset + length :=
      Nat.mod_eq_of_lt (by omega)
    rw [if_neg h0, if_neg (by omega), if_neg (by omega)]

theorem length_memcpyB (st : Store) (dst : Buffer) (doff : Nat) (src : Buffer)
    (soff n : Nat) : (memcpyB st dst doff src soff n).length = st.length := by
  unfold memcpyB
  rw [Store.length_writeList]

theorem allocLen_memcpyB (st : Store) (dst : Buffer) (doff : Nat)
    (src : Buffer) (soff n a : Nat) :
    (memcpyB st dst doff src soff n).allocLen a = st.allocLen a := by
  unfold memcpyB
  rw [Store.allocLen_writeList]

theorem readByte_memcpyB_outside (st : Store) (dst : Buffer) (doff : Nat)
    (src : Buffer) (soff n a j : Nat)
    (h : a ≠ dst.alloc ∨ j < dst.start + doff ∨ dst.start + doff + n ≤ j) :
    (memcpyB st dst doff src soff n).readByte a j = st.readByte a j := by
  unfold memcpyB
  rw [Store.readByte_writeList_outside]
  rcases h with h | h | h
  · exact Or.inl h
  · exact Or.inr (Or.inl h)
  · refine Or.inr (Or.inr ?_)
    have : (((st.getD src.alloc []).drop (src.start + soff)).take n).length ≤ n := by
      simp
    omega

theorem readByte_memcpyB_inside (st : Store) (dst : Buffer) (doff : Nat)
    (src : Buffer) (soff n i : Nat) (ha : dst.alloc < st.length) (hi : i < n)
    (hsrc : src.start + soff + n ≤ st.allocLen src.alloc)
    (hdst : dst.start + doff + n ≤ st.allocLen dst.alloc) :
    (memcpyB st dst doff src soff n).readByte dst.alloc (dst.start + doff + i) =
      st.readByte src.alloc (src.start + soff + i) := by
  unfold memcpyB
  have hlen : (((st.getD src.alloc []).drop (src.start + soff)).take n).length = n := by
    simp [Store.allocLen] at hsrc ⊢
    omega
  rw [Store.readByte_writeList_inside _ _ _ _ _ ha (by omega)
    (by rw [hlen]; omega) (by omega)]
  have : dst.start + doff + i - (dst.start + doff) = i := by omega
  rw [this, getD_drop_take _ _ _ _ _ hi]
  rfl

end Buffer

/-!  ## Byte-composition arithmetic for the integer codecs -/

theorem extract_byte (v s : Nat) :
    (v &&& ((2 ^ 8 - 1) <<< s)) >>> s = v / 2 ^ s % 2 ^ 8 := by
  have h : v / 2 ^ s % 2 ^ 8 = (v >>> s) &&& (2 ^ 8 - 1) := by
    rw [Nat.shiftRight_eq_div_pow, Nat.and_pow_two_sub_one_eq_mod]
  rw [h]
  apply Nat.eq_of_testBit_eq
  intro i
  simp only [Nat.testBit_shiftRight, Nat.testBit_and, Nat.testBit_shiftLeft,
    Nat.testBit_two_pow_sub_one]
  have : s ≤ s + i := by omega
  simp [this, Nat.add_sub_cancel_left, Bool.and_comm]

theorem shl_or_add (a b s : Nat) (h : b < 2 ^ s) :
    (a <<< s) ||| b = a * 2 ^ s + b := by
  rw [Nat.shiftLeft_eq, Nat.mul_comm, ← Nat.mul_add_lt_is_or h, Nat.mul_comm]

theorem readByte_writeByte_pos_ne (st : Store) (a i v j : Nat) (h : j ≠ i) :
    (st.writeByte a i v).readByte a j = st.readByte a j :=
  Store.readByte_writeByte_ne st a i v a j (Or.inr h)

theorem bytes2_comp (b1 b0 : Nat) (h1 : b1 < 256) (h0 : b0 < 256) :
    b1 <<< 8 ||| b0 = b1 * 2 ^ 8 + b0 :=
  shl_or_add b1 b0 8 (by omega)

theorem bytes4_comp (b3 b2 b1 b0 : Nat) (h3 : b3 < 256) (h2 : b2 < 256)
    (h1 : b1 < 256) (h0 : b0 < 256) :
    b3 <<< 24 ||| b2 <<< 16 ||| b1 <<< 8 ||| b0 =
      b3 * 2 ^ 24 + b2 * 2 ^ 16 + b1 * 2 ^ 8 + b0 := by
  simp only [Nat.or_assoc]
  rw [shl_or_add b1 b0 8 (by omega), shl_or_add b2 _ 16 (by omega),
    shl_or_add b3 _ 24 (by omega)]
  omega

theorem bytes8_comp (b7 b6 b5 b4 b3 b2 b1 b0 : Nat) (h7 : b7 < 256)
    (h6 : b6 < 256) (h5 : b5 < 256) (h4 : b4 < 256) (h3 : b3 < 256)
    (h2 : b2 < 256) (h1 : b1 < 256) (h0 : b0 < 256) :
    b7 <<< 56 ||| b6 <<< 48 ||| b5 <<< 40 ||| b4 <<< 32 ||| b3 <<< 24 |||
      b2 <<< 16 ||| b1 <<< 8 ||| b0 =
      b7 * 2 ^ 56 + b6 * 2 ^ 48 + b5 * 2 ^ 40 + b4 * 2 ^ 32 + b3 * 2 ^ 24 +
        b2 * 2 ^ 16 + b1 * 2 ^ 8 + b0 := by
  simp only [Nat.or_assoc]
  rw [shl_or_add b1 b0 8 (by omega), shl_or_add b2 _ 16 (by omega),
    shl_or_add b3 _ 24 (by omega), shl_or_add b4 _ 32 (by omega),
    shl_or_add b5 _ 40 (by omega), shl_or_add b6 _ 48 (by omega),
    shl_or_add b7 _ 56 (by omega)]
  omega

theorem comp16 (v : Nat) (hv : v < 2 ^ 16) :
    ((v &&& 0xFF00) >>> 8) <<< 8 ||| (v &&& 0x00FF) = v := by
  have m1 : (0xFF00 : Nat) = (2 ^ 8 - 1) <<< 8 := by decide
  have m0 : (0x00FF : Nat) = 2 ^ 8 - 1 := by decide
  rw [m1, m0, extract_byte, Nat.and_pow_two_sub_one_eq_mod,
    bytes2_comp _ _ (by omega) (by omega)]
  omega

theorem comp32 (v : Nat) (hv : v < 2 ^ 32) :
    ((v &&& 0xFF000000) >>> 24) <<< 24 ||| ((v &&& 0x00FF0000) >>> 16) <<< 16 |||
      ((v &&& 0x0000FF00) >>> 8) <<< 8 ||| (v &&& 0x000000FF) = v := by
  have m3 : (0xFF000000 : Nat) = (2 ^ 8 - 1) <<< 24 := by decide
  have m2 : (0x00FF0000 : Nat) = (2 ^ 8 - 1) <<< 16 := by decide
  have m1 : (0x0000FF00 : Nat) = (2 ^ 8 - 1) <<< 8 := by decide
  have m0 : (0x000000FF : Nat) = 2 ^ 8 - 1 := by decide
  rw [m3, m2, m1, m0, extract_byte, extract_byte, extract_byte,
    Nat.and_pow_two_sub_one_eq_mod,
    bytes4_comp _ _ _ _ (by omega) (by omega) (by omega) (by omega)]
  omega

theorem comp64 (v : Nat) (hv : v < 2 ^ 64) :
    ((v &&& 0xFF00000000000000) >>> 56) <<< 56 |||
      ((v &&& 0x00FF000000000000) >>> 48) <<< 48 |||
      ((v &&& 0x0000FF0000000000) >>> 40) <<< 40 |||
      ((v &&& 0x000000FF00000000) >>> 32) <<< 32 |||
      ((v &&& 0x00000000FF000000) >>> 24) <<< 24 |||
      ((v &&& 0x0000000000FF0000) >>> 16) <<< 16 |||
      ((v &&& 0x000000000000FF00) >>> 8) <<< 8 |||
      (v &&& 0x00000000000000FF) = v := by
  have m7 : (0xFF00000000000000 : Nat) = (2 ^ 8 - 1) <<< 56 := by decide
  have m6 : (0x00FF000000000000 : Nat) = (2 ^ 8 - 1) <<< 48 := by decide
  have m5 : (0x0000FF0000000000 : Nat) = (2 ^ 8 - 1) <<< 40 := by decide
  have m4 : (0x000000FF00000000 : Nat) = (2 ^ 8 - 1) <<< 32 := by decide
  have m3 : (0x00000000FF000000 : Nat) = (2 ^ 8 - 1) <<< 24 := by decide
  have m2 : (0x0000000000FF0000 : Nat) = (2 ^ 8 - 1) <<< 16 := by decide
  have m1 : (0x000000000000FF00 : Nat) = (2 ^ 8 - 1) <<< 8 := by decide
  have m0 : (0x00000000000000FF : Nat) = 2 ^ 8 - 1 := by decide
  rw [m7, m6, m5, m4, m3, m2, m1, m0, extract_byte, extract_byte, extract_byte,
    extract_byte, extract_byte, extract_byte, extract_byte,
    Nat.and_pow_two_sub_one_eq_mod,
    bytes8_comp _ _ _ _ _ _ _ _ (by omega) (by omega) (by omega) (by omega)
      (by omega) (by omega) (by omega) (by omega)]
  omega

theorem extract_s0 (v : Nat) : v &&& 0xFF = v % 256 := by
  have m : (0xFF : Nat) = 2 ^ 8 - 1 := by decide
  rw [m, Nat.and_pow_two_sub_one_eq_mod]

theorem extract_s8 (v : Nat) : (v &&& 0xFF00) >>> 8 = v / 2 ^ 8 % 256 := by
  have m : (0xFF00 : Nat) = (2 ^ 8 - 1) <<< 8 := by decide
  rw [m, extract_byte]
  norm_num

theorem extract_s16 (v : Nat) : (v &&& 0xFF0000) >>> 16 = v / 2 ^ 16 % 256 := by
  have m : (0xFF0000 : Nat) = (2 ^ 8 - 1) <<< 16 := by decide
  rw [m, extract_byte]
  norm_num

theorem extract_s24 (v : Nat) : (v &&& 0xFF000000) >>> 24 = v / 2 ^ 24 % 256 := by
  have m : (0xFF000000 : Nat) = (2 ^ 8 - 1) <<< 24 := by decide
  rw [m, extract_byte]
  norm_num

theorem extract_s32 (v : Nat) : (v &&& 0xFF00000000) >>> 32 = v / 2 ^ 32 % 256 := by
  have m : (0xFF00000000 : Nat) = (2 ^ 8 - 1) <<< 32 := by decide
  rw [m, extract_byte]
  norm_num

theorem extract_s40 (v : Nat) : (v &&& 0xFF0000000000) >>> 40 = v / 2 ^ 40 % 256 := by
  have m : (0xFF0000000000 : Nat) = (2 ^ 8 - 1) <<< 40 := by decide
  rw [m, extract_byte]
  norm_num

theorem extract_s48 (v : Nat) : (v &&& 0xFF000000000000) >>> 48 = v / 2 ^ 48 % 256 := by
  have m : (0xFF000000000000 : Nat) = (2 ^ 8 - 1) <<< 48 := by decide
  rw [m, extract_byte]
  norm_num

theorem extract_s56 (v : Nat) : (v &&& 0xFF00000000000000) >>> 56 = v / 2 ^ 56 % 256 := by
  have m : (0xFF00000000000000 : Nat) = (2 ^ 8 - 1) <<< 56 := by decide
  rw [m, extract_byte]
  norm_num

/-!  ## Round-trip lemmas for the integer codecs -/

theorem rt_u8 (st : Store) (b : Buffer) (offset v : Nat)
    (hwf : b.wf st) (hoff : offset + 1 ≤ b.len) (hv : v < 2 ^ 8) :
    (Buffer.write_uint8 st b v offset).1 = .ok () ∧
    Buffer.read_uint8 (Buffer.write_uint8 st b v offset).2 b offset =
      (.ok v, (Buffer.write_uint8 st b v offset).2) ∧
    (List.range 1).map
        (fun k => b.byteAt (Buffer.write_uint8 st b v offset).2 (offset + k)) =
      beBytesSpec 1 v := by
  obtain ⟨ha, hb, hW⟩ := hwf
  have hchk : b.check_access offset 1 = true :=
    Buffer.check_access_true_of _ _ _ (by omega) hW
  have h0 : b.byteAt (Buffer.write_uint8 st b v offset).2 offset = v := by
    simp only [Buffer.write_uint8, hchk, if_true]
    simp (disch := (try simp only [Store.length_writeByte,
        Store.allocLen_writeByte]); omega) only
      [Buffer.byteAt, Buffer.setByteAt, readByte_writeByte_pos_ne,
       Store.readByte_writeByte_self]
  refine ⟨by simp [Buffer.write_uint8, hchk], ?_, ?_⟩
  · simp only [Buffer.read_uint8, hchk, if_true, h0]
  · simp only [beBytesSpec]
    apply List.map_congr_left
    intro k hk
    rw [List.mem_range] at hk
    interval_cases k
    · rw [Nat.add_zero, h0]
      norm_num
      omega

theorem rt_u16_be (st : Store) (b : Buffer) (offset v : Nat)
    (hwf : b.wf st) (hoff : offset + 2 ≤ b.len) (hv : v < 2 ^ 16) :
    (Buffer.write_uint16_be st b v offset).1 = .ok () ∧
    Buffer.read_uint16_be (Buffer.write_uint16_be st b v offset).2 b offset =
      (.ok v, (Buffer.write_uint16_be st b v offset).2) ∧
    (List.range 2).map
        (fun k => b.byteAt (Buffer.write_uint16_be st b v offset).2 (offset + k)) =
      beBytesSpec 2 v := by
  obtain ⟨ha, hb, hW⟩ := hwf
  have hchk : b.check_access offset 2 = true :=
    Buffer.check_access_true_of _ _ _ (by omega) hW
  have hby : b.byteAt (Buffer.write_uint16_be st b v offset).2 (offset + 0) =
        (v &&& 0xFF00) >>> 8 ∧
      b.byteAt (Buffer.write_uint16_be st b v offset).2 (offset + 1) =
        v &&& 0x00FF := by
    simp only [Buffer.write_uint16_be, hchk, if_true]
    refine ⟨?_, ?_⟩ <;>
    simp (disch := (try simp only [Store.length_writeByte,
        Store.allocLen_writeByte]); omega) only
      [Buffer.byteAt, Buffer.setByteAt, readByte_writeByte_pos_ne,
       Store.readByte_writeByte_self]
  obtain ⟨h0, h1⟩ := hby
  refine ⟨by simp [Buffer.write_uint16_be, hchk], ?_, ?_⟩
  · simp only [Buffer.read_uint16_be, hchk, if_true, h0, h1]
    rw [comp16 v hv]
  · simp only [beBytesSpec]
    apply List.map_congr_left
    intro k hk
    rw [List.mem_range] at hk
    interval_cases k
    · rw [h0, extract_s8]
      try norm_num
    · rw [h1, extract_s0]
      try norm_num

theorem rt_u16_le (st : Store) (b : Buffer) (offset v : Nat)
    (hwf : b.wf st) (hoff : offset + 2 ≤ b.len) (hv : v < 2 ^ 16) :
    (Buffer.write_uint16_le st b v offset).1 = .ok () ∧
    Buffer.read_uint16_le (Buffer.write_uint16_le st b v offset).2 b offset =
      (.ok v, (Buffer.write_uint16_le st b v offset).2) ∧
    (List.range 2).map
        (fun k => b.byteAt (Buffer.write_uint16_le st b v offset).2 (offset + k)) =
      leBytesSpec 2 v := by
  obtain ⟨ha, hb, hW⟩ := hwf
  have hchk : b.check_access offset 2 = true :=
    Buffer.check_access_true_of _ _ _ (by omega) hW
  have hby : b.byteAt (Buffer.write_uint16_le st b v offset).2 (offset + 1) =
        (v &&& 0xFF00) >>> 8 ∧
      b.byteAt (Buffer.write_uint16_le st b v offset).2 (offset + 0) =
        v &&& 0x00FF := by
    simp only [Buffer.write_uint16_le, hchk, if_true]
    refine ⟨?_, ?_⟩ <;>
    simp (disch := (try simp only [Store.length_writeByte,
        Store.allocLen_writeByte]); omega) only
      [Buffer.byteAt, Buffer.setByteAt, readByte_writeByte_pos_ne,
       Store.readByte_writeByte_self]
  obtain ⟨h1, h0⟩ := hby
  refine ⟨by simp [Buffer.write_uint16_le, hchk], ?_, ?_⟩
  · simp only [Buffer.read_uint16_le, hchk, if_true, h0, h1]
    rw [comp16 v hv]
  · simp only [leBytesSpec]
    apply List.map_congr_left
    intro k hk
    rw [List.mem_range] at hk
    interval_cases k
    · rw [h0, extract_s0]
      try norm_num
    · rw [h1, extract_s8]
      try norm_num

theorem rt_u32_be (st : Store) (b : Buffer) (offset v : Nat)
    (hwf : b.wf st) (hoff : offset + 4 ≤ b.len) (hv : v < 2 ^ 32) :
    (Buffer.write_uint32_be st b v offset).1 = .ok () ∧
    Buffer.read_uint32_be (Buffer.write_uint32_be st b v offset).2 b offset =
      (.ok v, (Buffer.write_uint32_be st b v offset).2) ∧
    (List.range 4).map
        (fun k => b.byteAt (Buffer.write_uint32_be st b v offset).2 (offset + k)) =
      beBytesSpec 4 v := by
  obtain ⟨ha, hb, hW⟩ := hwf
  have hchk : b.check_access offset 4 = true :=
    Buffer.check_access_true_of _ _ _ (by omega) hW
  have hby : b.byteAt (Buffer.write_uint32_be st b v offset).2 (offset + 0) =
        (v &&& 0xFF000000) >>> 24 ∧
      b.byteAt (Buffer.write_uint32_be st b v offset).2 (offset + 1) =
        (v &&& 0x00FF0000) >>> 16 ∧
      b.byteAt (Buffer.write_uint32_be st b v offset).2 (offset + 2) =
        (v &&& 0x0000FF00) >>> 8 ∧
      b.byteAt (Buffer.write_uint32_be st b v offset).2 (offset + 3) =
        v &&& 0x000000FF := by
    simp only [Buffer.write_uint32_be, hchk, if_true]
    refine ⟨?_, ?_, ?_, ?_⟩ <;>
    simp (disch := (try simp only [Store.length_writeByte,
        Store.allocLen_writeByte]); omega) only
      [Buffer.byteAt, Buffer.setByteAt, readByte_writeByte_pos_ne,
       Store.readByte_writeByte_self]
  obtain ⟨h0, h1, h2, h3⟩ := hby
  refine ⟨by simp [Buffer.write_uint32_be, hchk], ?_, ?_⟩
  · simp only [Buffer.read_uint32_be, hchk, if_true, h0, h1, h2, h3]
    rw [comp32 v hv]
  · simp only [beBytesSpec]
    apply List.map_congr_left
    intro k hk
    rw [List.mem_range] at hk
    interval_cases k
    · rw [h0, extract_s24]
      try norm_num
    · rw [h1, extract_s16]
      try norm_num
    · rw [h2, extract_s8]
      try norm_num
    · rw [h3, extract_s0]
      try norm_num

theorem rt_u32_le (st : Store) (b : Buffer) (offset v : Nat)
    (hwf : b.wf st) (hoff : offset + 4 ≤ b.len) (hv : v < 2 ^ 32) :
    (Buffer.write_uint32_le st b v offset).1 = .ok () ∧
    Buffer.read_uint32_le (Buffer.write_uint32_le st b v offset).2 b offset =
      (.ok v, (Buffer.write_uint32_le st b v offset).2) ∧
    (List.range 4).map
        (fun k => b.byteAt (Buffer.write_uint32_le st b v offset).2 (offset + k)) =
      leBytesSpec 4 v := by
  obtain ⟨ha, hb, hW⟩ := hwf
  have hchk : b.check_access offset 4 = true :=
    Buffer.check_access_true_of _ _ _ (by omega) hW
  have hby : b.byteAt (Buffer.write_uint32_le st b v offset).2 (offset + 0) =
        v &&& 0x000000FF ∧
      b.byteAt (Buffer.write_uint32_le st b v offset).2 (offset + 1) =
        (v &&& 0x0000FF00) >>> 8 ∧
      b.byteAt (Buffer.write_uint32_le st b v offset).2 (offset + 2) =
        (v &&& 0x00FF0000) >>> 16 ∧
      b.byteAt (Buffer.write_uint32_le st b v offset).2 (offset + 3) =
        (v &&& 0xFF000000) >>> 24 := by
    simp only [Buffer.write_uint32_le, hchk, if_true]
    refine ⟨?_, ?_, ?_, ?_⟩ <;>
    simp (disch := (try simp only [Store.length_writeByte,
        Store.allocLen_writeByte]); omega) only
      [Buffer.byteAt, Buffer.setByteAt, readByte_writeByte_pos_ne,
       Store.readByte_writeByte_self]
  obtain ⟨h0, h1, h2, h3⟩ := hby
  refine ⟨by simp [Buffer.write_uint32_le, hchk], ?_, ?_⟩
  · simp only [Buffer.read_uint32_le, hchk, if_true, h0, h1, h2, h3]
    rw [comp32 v hv]
  · simp only [leBytesSpec]
    apply List.map_congr_left
    intro k hk
    rw [List.mem_range] at hk
    interval_cases k
    · rw [h0, extract_s0]
      try norm_num
    · rw [h1, extract_s8]
      try norm_num
    · rw [h2, extract_s16]
      try norm_num
    · rw [h3, extract_s24]
      try norm_num

theorem rt_u64_be (st : Store) (b : Buffer) (offset v : Nat)
    (hwf : b.wf st) (hoff : offset + 8 ≤ b.len) (hv : v < 2 ^ 64) :
    (Buffer.write_uint64_be st b v offset).1 = .ok () ∧
    Buffer.read_uint64_be (Buffer.write_uint64_be st b v offset).2 b offset =
      (.ok v, (Buffer.write_uint64_be st b v offset).2) ∧
    (List.range 8).map
        (fun k => b.byteAt (Buffer.write_uint64_be st b v offset).2 (offset + k)) =
      beBytesSpec 8 v := by
  obtain ⟨ha, hb, hW⟩ := hwf
  have hchk : b.check_access offset 8 = true :=
    Buffer.check_access_true_of _ _ _ (by omega) hW
  have hby : b.byteAt (Buffer.write_uint64_be st b v offset).2 (offset + 0) =
        (v &&& 0xFF00000000000000) >>> 56 ∧
      b.byteAt (Buffer.write_uint64_be st b v offset).2 (offset + 1) =
        (v &&& 0x00FF000000000000) >>> 48 ∧
      b.byteAt (Buffer.write_uint64_be st b v offset).2 (offset + 2) =
        (v &&& 0x0000FF0000000000) >>> 40 ∧
      b.byteAt (Buffer.write_uint64_be st b v offset).2 (offset + 3) =
        (v &&& 0x000000FF00000000) >>> 32 ∧
      b.byteAt (Buffer.write_uint64_be st b v offset).2 (offset + 4) =
        (v &&& 0x00000000FF000000) >>> 24 ∧
      b.byteAt (Buffer.write_uint64_be st b v offset).2 (offset + 5) =
        (v &&& 0x0000000000FF0000) >>> 16 ∧
      b.byteAt (Buffer.write_uint64_be st b v offset).2 (offset + 6) =
        (v &&& 0x000000000000FF00) >>> 8 ∧
      b.byteAt (Buffer.write_uint64_be st b v offset).2 (offset + 7) =
        v &&& 0x00000000000000FF := by
    simp only [Buffer.write_uint64_be, hchk, if_true]
    refine ⟨?_, ?_, ?_, ?_, ?_, ?_, ?_, ?_⟩ <;>
    simp (disch := (try simp only [Store.length_writeByte,
        Store.allocLen_writeByte]); omega) only
      [Buffer.byteAt, Buffer.setByteAt, readByte_writeByte_pos_ne,
       Store.readByte_writeByte_self]
  obtain ⟨h0, h1, h2, h3, h4, h5, h6, h7⟩ := hby
  refine ⟨by simp [Buffer.write_uint64_be, hchk], ?_, ?_⟩
  · simp only [Buffer.read_uint64_be, hchk, if_true, h0, h1, h2, h3, h4, h5, h6, h7]
    rw [comp64 v hv]
  · simp only [beBytesSpec]
    apply List.map_congr_left
    intro k hk
    rw [List.mem_range] at hk
    interval_cases k
    · rw [h0, extract_s56]
      try norm_num
    · rw [h1, extract_s48]
      try norm_num
    · rw [h2, extract_s40]
      try norm_num
    · rw [h3, extract_s32]
      try norm_num
    · rw [h4, extract_s24]
      try norm_num
    · rw [h5, extract_s16]
      try norm_num
    · rw [h6, extract_s8]
      try norm_num
    · rw [h7, extract_s0]
      try norm_num

theorem rt_u64_le (st : Store) (b : Buffer) (offset v : Nat)
    (hwf : b.wf st) (hoff : offset + 8 ≤ b.len) (hv : v < 2 ^ 64) :
    (Buffer.write_uint64_le st b v offset).1 = .ok () ∧
    Buffer.read_uint64_le (Buffer.write_uint64_le st b v offset).2 b offset =
      (.ok v, (Buffer.write_uint64_le st b v offset).2) ∧
    (List.range 8).map
        (fun k => b.byteAt (Buffer.write_uint64_le st b v offset).2 (offset + k)) =
      leBytesSpec 8 v := by
  obtain ⟨ha, hb, hW⟩ := hwf
  have hchk : b.check_access offset 8 = true :=
    Buffer.check_access_true_of _ _ _ (by omega) hW
  have hby : b.byteAt (Buffer.write_uint64_le st b v offset).2 (offset + 0) =
        v &&& 0x00000000000000FF ∧
      b.byteAt (Buffer.write_uint64_le st b v offset).2 (offset + 1) =
        (v &&& 0x000000000000FF00) >>> 8 ∧
      b.byteAt (Buffer.write_uint64_le st b v offset).2 (offset + 2) =
        (v &&& 0x0000000000FF0000) >>> 16 ∧
      b.byteAt (Buffer.write_uint64_le st b v offset).2 (offset + 3) =
        (v &&& 0x00000000FF000000) >>> 24 ∧
      b.byteAt (Buffer.write_uint64_le st b v offset).2 (offset + 4) =
        (v &&& 0x000000FF00000000) >>> 32 ∧
      b.byteAt (Buffer.write_uint64_le st b v offset).2 (offset + 5) =
        (v &&& 0x0000FF0000000000) >>> 40 ∧
      b.byteAt (Buffer.write_uint64_le st b v offset).2 (offset + 6) =
        (v &&& 0x00FF000000000000) >>> 48 ∧
      b.byteAt (Buffer.write_uint64_le st b v offset).2 (offset + 7) =
        (v &&& 0xFF00000000000000) >>> 56 := by
    simp only [Buffer.write_uint64_le, hchk, if_true]
    refine ⟨?_, ?_, ?_, ?_, ?_, ?_, ?_, ?_⟩ <;>
    simp (disch := (try simp only [Store.length_writeByte,
        Store.allocLen_writeByte]); omega) only
      [Buffer.byteAt, Buffer.setByteAt, readByte_writeByte_pos_ne,
       Store.readByte_writeByte_self]
  obtain ⟨h0, h1, h2, h3, h4, h5, h6, h7⟩ := hby
  refine ⟨by simp [Buffer.write_uint64_le, hchk], ?_, ?_⟩
  · simp only [Buffer.read_uint64_le, hchk, if_true, h0, h1, h2, h3, h4, h5, h6, h7]
    rw [comp64 v hv]
  · simp only [leBytesSpec]
    apply List.map_congr_left
    intro k hk
    rw [List.mem_range] at hk
    interval_cases k
    · rw [h0, extract_s0]
      try norm_num
    · rw [h1, extract_s8]
      try norm_num
    · rw [h2, extract_s16]
      try norm_num
    · rw [h3, extract_s24]
      try norm_num
    · rw [h4, extract_s32]
      try norm_num
    · rw [h5, extract_s40]
      try norm_num
    · rw [h6, extract_s48]
      try norm_num
    · rw [h7, extract_s56]
      try norm_num

/-!  ## Claim theorems -/

/-- Claim C4, divergence witness: `Buffer::check_access` computes
`offset + length` in `size_t`, so for a buffer of logical length 2 the
access with `offset = 1` and `length = 2 ^ 64 - 1` wraps to 0 and is
allowed, although `length > 0` and `offset + length > 2` mathematically, for
which the claim (and the bounds-check rule of the spec) require an
OutOfRange failure.  The bounds check is bypassed by integer overflow. -/
theorem claim_C4_check_access_overflow_bug :
    Buffer.check_access ⟨0, 0, 2⟩ 1 (2 ^ 64 - 1) = true ∧
    (2 ^ 64 - 1 : Nat) ≠ 0 ∧ 2 < 1 + (2 ^ 64 - 1) := by
  refine ⟨by decide, by norm_num, by norm_num⟩

/-- Claim C3, counterexample: the cursor does NOT own a private deep copy of
the bytes.  `BufferFetcher::BufferFetcher(const Buffer&)` wraps
`new Buffer(buffer)`, and the `Buffer` copy constructor shares the
allocation.  Starting from the buffer `{1, 2}`, constructing a cursor,
then writing 9 at offset 0 through the source buffer, the first `fetch`
returns 9 — not the pre-mutation byte 1 the claim promises. -/
theorem claim_C3_counterexample :
    (Fetcher.fetch
        (Buffer.write_uint8 (Buffer.fromData [] [1, 2]).1
          (Buffer.fromData [] [1, 2]).2 9 0).2
        (Fetcher.ofBuffer (Buffer.fromData [] [1, 2]).2)).1 = .ok 9 ∧
    (9 : Nat) ≠ 1 := ⟨rfl, by decide⟩

/-- Claim C3, amended: the cursor (and each queue segment) holds its own
`Buffer` object, but that object is built with the sharing copy
constructor, so it references the very same allocation as the caller
buffer; subsequent mutations performed through the caller buffer are
visible in the bytes the cursor returns.  Likewise, `push` appends a cursor
wrapping a sharing copy of the pushed buffer. -/
theorem claim_C3_amended (st : Store) (b : Buffer) (v offset : Nat)
    (q : BufferQueue) (hlen : 0 < b.len) :
    (Fetcher.ofBuffer b).buf = b ∧
    Fetcher.remBytes (Buffer.write_uint8 st b v offset).2 (Fetcher.ofBuffer b) =
      Buffer.bytes (Buffer.write_uint8 st b v offset).2 b ∧
    (BufferQueue.push st q b).2.queue = q.queue ++ [Fetcher.ofBuffer b] := by
  refine ⟨rfl, rfl, ?_⟩
  rw [BufferQueue.push, if_neg (by simp [Buffer.get_length]; omega)]

/-- Witness for the amended C3 at a concrete input. -/
theorem claim_C3_amended_witness :
    (Fetcher.ofBuffer ⟨0, 0, 2⟩).buf = ⟨0, 0, 2⟩ ∧
    Fetcher.remBytes (Buffer.write_uint8 [[1, 2]] ⟨0, 0, 2⟩ 9 0).2
        (Fetcher.ofBuffer ⟨0, 0, 2⟩) =
      Buffer.bytes (Buffer.write_uint8 [[1, 2]] ⟨0, 0, 2⟩ 9 0).2 ⟨0, 0, 2⟩ ∧
    (BufferQueue.push [[1, 2]] BufferQueue.empty ⟨0, 0, 2⟩).2.queue =
      BufferQueue.empty.queue ++ [Fetcher.ofBuffer ⟨0, 0, 2⟩] :=
  claim_C3_amended [[1, 2]] ⟨0, 0, 2⟩ 9 0 BufferQueue.empty (by decide)

/-- Claim C6: `slice(offset, length)` with `offset + length ≤ len` succeeds
and yields a view of the requested length over the same allocation; reading
index `i` of the slice reads byte `offset + i` of the parent, and writing
through the slice at index `i` changes the parent at `offset + i` — the
slice shares the parent storage rather than copying it. -/
theorem claim_C6_slice_alias (st : Store) (b : Buffer) (offset length i v : Nat)
    (hwf : b.wf st) (hol : offset + length ≤ b.len) (hi : i < length)
    (hv : v < 256) :
    b.slice2 offset length = .ok ⟨b.alloc, b.start + offset, length⟩ ∧
    Buffer.get_length ⟨b.alloc, b.start + offset, length⟩ = length ∧
    Buffer.byteAt st ⟨b.alloc, b.start + offset, length⟩ i =
      b.byteAt st (offset + i) ∧
    (Buffer.write_uint8 st ⟨b.alloc, b.start + offset, length⟩ v i).1 = .ok () ∧
    Buffer.byteAt (Buffer.write_uint8 st ⟨b.alloc, b.start + offset, length⟩ v i).2
      b (offset + i) = v := by
  obtain ⟨ha, hb, hW⟩ := hwf
  have hchk : b.check_access offset length = true :=
    Buffer.check_access_true_of _ _ _ hol hW
  have hchk1 : Buffer.check_access ⟨b.alloc, b.start + offset, length⟩ i 1 = true :=
    Buffer.check_access_true_of ⟨b.alloc, b.start + offset, length⟩ i 1
      (by show i + 1 ≤ length; omega) (by show length < SIZE_W; omega)
  refine ⟨?_, rfl, ?_, ?_, ?_⟩
  · rw [Buffer.slice2, if_pos hchk]
  · show Store.readByte st b.alloc (b.start + offset + i) =
      Store.readByte st b.alloc (b.start + (offset + i))
    rw [Nat.add_assoc]
  · rw [Buffer.write_uint8, if_pos hchk1]
  · rw [Buffer.write_uint8, if_pos hchk1]
    show Store.readByte
      (Store.writeByte st b.alloc (b.start + offset + i) v) b.alloc
      (b.start + (offset + i)) = v
    rw [← Nat.add_assoc]
    exact Store.readByte_writeByte_self st b.alloc _ v ha (by
      show b.start + offset + i < st.allocLen b.alloc
      omega)

/-- Witness for C6 at a concrete input. -/
theorem claim_C6_slice_alias_witness :
    Buffer.slice2 ⟨0, 0, 4⟩ 1 2 = .ok ⟨0, 0 + 1, 2⟩ ∧
    Buffer.get_length ⟨0, 0 + 1, 2⟩ = 2 ∧
    Buffer.byteAt [[5, 6, 7, 8]] ⟨0, 0 + 1, 2⟩ 1 =
      Buffer.byteAt [[5, 6, 7, 8]] ⟨0, 0, 4⟩ (1 + 1) ∧
    (Buffer.write_uint8 [[5, 6, 7, 8]] ⟨0, 0 + 1, 2⟩ 9 1).1 = .ok () ∧
    Buffer.byteAt (Buffer.write_uint8 [[5, 6, 7, 8]] ⟨0, 0 + 1, 2⟩ 9 1).2
      ⟨0, 0, 4⟩ (1 + 1) = 9 :=
  claim_C6_slice_alias [[5, 6, 7, 8]] ⟨0, 0, 4⟩ 1 2 1 9 (by decide) (by decide)
    (by decide) (by decide)


/-- Claim C8: for every unsigned value of width 8, 16, 32 or 64 bits, both
endiannesses, and every valid offset in a sufficiently large well-formed
buffer, reading with the matching reader immediately after writing returns
exactly the written value, and the bytes written are the standard
big-endian respectively little-endian byte order of the value. -/
theorem claim_C8_uint_roundtrip :
    (∀ (st : Store) (b : Buffer) (offset v : Nat),
      b.wf st → offset + 1 ≤ b.len → v < 2 ^ 8 →
      (Buffer.write_uint8 st b v offset).1 = .ok () ∧
      Buffer.read_uint8 (Buffer.write_uint8 st b v offset).2 b offset =
        (.ok v, (Buffer.write_uint8 st b v offset).2) ∧
      (List.range 1).map
          (fun k => b.byteAt (Buffer.write_uint8 st b v offset).2 (offset + k)) =
        beBytesSpec 1 v) ∧
    (∀ (st : Store) (b : Buffer) (offset v : Nat),
      b.wf st → offset + 2 ≤ b.len → v < 2 ^ 16 →
      (Buffer.write_uint16_be st b v offset).1 = .ok () ∧
      Buffer.read_uint16_be (Buffer.write_uint16_be st b v offset).2 b offset =
        (.ok v, (Buffer.write_uint16_be st b v offset).2) ∧
      (List.range 2).map
          (fun k => b.byteAt (Buffer.write_uint16_be st b v offset).2 (offset + k)) =
        beBytesSpec 2 v) ∧
    (∀ (st : Store) (b : Buffer) (offset v : Nat),
      b.wf st → offset + 2 ≤ b.len → v < 2 ^ 16 →
      (Buffer.write_uint16_le st b v offset).1 = .ok () ∧
      Buffer.read_uint16_le (Buffer.write_uint16_le st b v offset).2 b offset =
        (.ok v, (Buffer.write_uint16_le st b v offset).2) ∧
      (List.range 2).map
          (fun k => b.byteAt (Buffer.write_uint16_le st b v offset).2 (offset + k)) =
        leBytesSpec 2 v) ∧
    (∀ (st : Store) (b : Buffer) (offset v : Nat),
      b.wf st → offset + 4 ≤ b.len → v < 2 ^ 32 →
      (Buffer.write_uint32_be st b v offset).1 = .ok () ∧
      Buffer.read_uint32_be (Buffer.write_uint32_be st b v offset).2 b offset =
        (.ok v, (Buffer.write_uint32_be st b v offset).2) ∧
      (List.range 4).map
          (fun k => b.byteAt (Buffer.write_uint32_be st b v offset).2 (offset + k)) =
        beBytesSpec 4 v) ∧
    (∀ (st : Store) (b : Buffer) (offset v : Nat),
      b.wf st → offset + 4 ≤ b.len → v < 2 ^ 32 →
      (Buffer.write_uint32_le st b v offset).1 = .ok () ∧
      Buffer.read_uint32_le (Buffer.write_uint32_le st b v offset).2 b offset =
        (.ok v, (Buffer.write_uint32_le st b v offset).2) ∧
      (List.range 4).map
          (fun k => b.byteAt (Buffer.write_uint32_le st b v offset).2 (offset + k)) =
        leBytesSpec 4 v) ∧
    (∀ (st : Store) (b : Buffer) (offset v : Nat),
      b.wf st → offset + 8 ≤ b.len → v < 2 ^ 64 →
      (Buffer.write_uint64_be st b v offset).1 = .ok () ∧
      Buffer.read_uint64_be (Buffer.write_uint64_be st b v offset).2 b offset =
        (.ok v, (Buffer.write_uint64_be st b v offset).2) ∧
      (List.range 8).map
          (fun k => b.byteAt (Buffer.write_uint64_be st b v offset).2 (offset + k)) =
        beBytesSpec 8 v) ∧
    (∀ (st : Store) (b : Buffer) (offset v : Nat),
      b.wf st → offset + 8 ≤ b.len → v < 2 ^ 64 →
      (Buffer.write_uint64_le st b v offset).1 = .ok () ∧
      Buffer.read_uint64_le (Buffer.write_uint64_le st b v offset).2 b offset =
        (.ok v, (Buffer.write_uint64_le st b v offset).2) ∧
      (List.range 8).map
          (fun k => b.byteAt (Buffer.write_uint64_le st b v offset).2 (offset + k)) =
        leBytesSpec 8 v) :=
  ⟨rt_u8, rt_u16_be, rt_u16_le, rt_u32_be, rt_u32_le, rt_u64_be, rt_u64_le⟩

/-- Witness for C8: the 16-bit big-endian conjunct at the concrete input of
the spec scenario (write 0x4562 at offset 3 of a 7-byte buffer). -/
theorem claim_C8_uint_roundtrip_witness :
    (Buffer.write_uint16_be [[1, 2, 3, 4, 5, 6, 7]] ⟨0, 0, 7⟩ 0x4562 3).1 = .ok () ∧
    Buffer.read_uint16_be
        (Buffer.write_uint16_be [[1, 2, 3, 4, 5, 6, 7]] ⟨0, 0, 7⟩ 0x4562 3).2
        ⟨0, 0, 7⟩ 3 =
      (.ok 0x4562,
        (Buffer.write_uint16_be [[1, 2, 3, 4, 5, 6, 7]] ⟨0, 0, 7⟩ 0x4562 3).2) ∧
    (List.range 2).map
        (fun k => Buffer.byteAt
          (Buffer.write_uint16_be [[1, 2, 3, 4, 5, 6, 7]] ⟨0, 0, 7⟩ 0x4562 3).2
          ⟨0, 0, 7⟩ (3 + k)) =
      beBytesSpec 2 0x4562 :=
  claim_C8_uint_roundtrip.2.1 [[1, 2, 3, 4, 5, 6, 7]] ⟨0, 0, 7⟩ 3 0x4562
    (by decide) (by decide) (by decide)


theorem copy_core (st : Store) (s d : Buffer) (doff soff n : Nat)
    (hs : s.wf st) (hd : d.wf st)
    (hn1 : soff + n ≤ s.len) (hn2 : doff + n ≤ d.len) (i : Nat) (hi : i < n) :
    Buffer.byteAt (Buffer.memcpyB st d doff s soff n) d (doff + i) =
      s.byteAt st (soff + i) := by
  obtain ⟨ha, hb, _⟩ := hs
  obtain ⟨ha', hb', _⟩ := hd
  show Store.readByte _ d.alloc (d.start + (doff + i)) =
    Store.readByte st s.alloc (s.start + (soff + i))
  rw [← Nat.add_assoc, ← Nat.add_assoc]
  exact Buffer.readByte_memcpyB_inside st d doff s soff n i ha' hi
    (by omega) (by omega)

/-- Claim C7: the three `copy` overloads copy exactly
`min(source remaining, destination remaining)` bytes and return that count;
they never fail because the lengths differ; the no-offset overload cannot
fail at all (it is total), and each offset-taking overload fails with
OutOfRange exactly when an explicitly given offset exceeds the length of
the buffer it indexes into.  The copied bytes land at the destination
offset, and (for the two-offset overload) nothing outside the copied window
changes. -/
theorem claim_C7_copy :
    (∀ (st : Store) (s d : Buffer), s.wf st → d.wf st → s.alloc ≠ d.alloc →
      (Buffer.copy0 st s d).1 = min s.len d.len ∧
      ∀ i, i < min s.len d.len →
        Buffer.byteAt (Buffer.copy0 st s d).2 d i = s.byteAt st i) ∧
    (∀ (st : Store) (s d : Buffer) (doff : Nat),
      ((Buffer.copy1 st s d doff).1 = .error .overflow ↔ d.len < doff) ∧
      (s.wf st → d.wf st → s.alloc ≠ d.alloc → doff ≤ d.len →
        (Buffer.copy1 st s d doff).1 = .ok (min s.len (d.len - doff)) ∧
        ∀ i, i < min s.len (d.len - doff) →
          Buffer.byteAt (Buffer.copy1 st s d doff).2 d (doff + i) =
            s.byteAt st i)) ∧
    (∀ (st : Store) (s d : Buffer) (doff soff : Nat),
      ((Buffer.copy2 st s d doff soff).1 = .error .overflow ↔
        (d.len < doff ∨ s.len < soff)) ∧
      (s.wf st → d.wf st → s.alloc ≠ d.alloc → doff ≤ d.len → soff ≤ s.len →
        (Buffer.copy2 st s d doff soff).1 =
          .ok (min (s.len - soff) (d.len - doff)) ∧
        (∀ i, i < min (s.len - soff) (d.len - doff) →
          Buffer.byteAt (Buffer.copy2 st s d doff soff).2 d (doff + i) =
            s.byteAt st (soff + i)) ∧
        (∀ a j, (a ≠ d.alloc ∨ j < d.start + doff ∨
            d.start + doff + min (s.len - soff) (d.len - doff) ≤ j) →
          Store.readByte (Buffer.copy2 st s d doff soff).2 a j =
            Store.readByte st a j))) := by
  refine ⟨?_, ?_, ?_⟩
  · intro st s d hs hd _hdisj
    refine ⟨rfl, ?_⟩
    intro i hi
    have h := copy_core st s d 0 0 (min s.len d.len) hs hd
      (by omega) (by omega) i hi
    simpa using h
  · intro st s d doff
    constructor
    · by_cases hc : d.len < doff <;> simp [Buffer.copy1, hc]
    · intro hs hd _hdisj hle
      rw [Buffer.copy1, if_neg (by omega)]
      refine ⟨rfl, ?_⟩
      intro i hi
      have h := copy_core st s d doff 0 (min s.len (d.len - doff)) hs hd
        (by omega) (by omega) i hi
      simpa using h
  · intro st s d doff soff
    constructor
    · by_cases h1 : d.len < doff <;> by_cases h2 : s.len < soff <;>
        simp [Buffer.copy2, h1, h2]
    · intro hs hd _hdisj hle1 hle2
      rw [Buffer.copy2, if_neg (by omega), if_neg (by omega)]
      refine ⟨rfl, ?_, ?_⟩
      · intro i hi
        exact copy_core st s d doff soff (min (s.len - soff) (d.len - doff))
          hs hd (by omega) (by omega) i hi
      · intro a j hout
        exact Buffer.readByte_memcpyB_outside st d doff s soff _ a j hout

/-- Witness for C7: the two-offset overload on concrete buffers, exercising
both the error condition and the successful copy. -/
theorem claim_C7_copy_witness :
    ((Buffer.copy2 [[1, 2, 3], [0, 0]] ⟨0, 0, 3⟩ ⟨1, 0, 2⟩ 3 0).1 =
        .error .overflow ↔ ((2 : Nat) < 3 ∨ (3 : Nat) < 0)) ∧
    ((Buffer.copy2 [[1, 2, 3], [0, 0]] ⟨0, 0, 3⟩ ⟨1, 0, 2⟩ 1 2).1 =
        .ok (min (3 - 2) (2 - 1)) ∧
      (∀ i, i < min (3 - 2) (2 - 1) →
        Buffer.byteAt (Buffer.copy2 [[1, 2, 3], [0, 0]] ⟨0, 0, 3⟩ ⟨1, 0, 2⟩ 1 2).2
            ⟨1, 0, 2⟩ (1 + i) =
          Buffer.byteAt [[1, 2, 3], [0, 0]] ⟨0, 0, 3⟩ (2 + i)) ∧
      (∀ a j, (a ≠ 1 ∨ j < 0 + 1 ∨ 0 + 1 + min (3 - 2) (2 - 1) ≤ j) →
        Store.readByte
            (Buffer.copy2 [[1, 2, 3], [0, 0]] ⟨0, 0, 3⟩ ⟨1, 0, 2⟩ 1 2).2 a j =
          Store.readByte [[1, 2, 3], [0, 0]] a j)) :=
  ⟨((claim_C7_copy.2.2 [[1, 2, 3], [0, 0]] ⟨0, 0, 3⟩ ⟨1, 0, 2⟩ 3 0).1),
   (claim_C7_copy.2.2 [[1, 2, 3], [0, 0]] ⟨0, 0, 3⟩ ⟨1, 0, 2⟩ 1 2).2
     (by decide) (by decide) (by decide) (by decide) (by decide)⟩


theorem read_uint8_store (st : Store) (b : Buffer) (offset : Nat) :
    (Buffer.read_uint8 st b offset).2 = st := by
  rw [Buffer.read_uint8]
  split <;> rfl

/-- Claim C10: copying a cursor (copy constructor, and the member-wise
assignment operator it matches) yields a cursor with the same position over
the same underlying `Buffer` object — the allocation is shared, not
deep-copied — and advancing one cursor via `fetch`, `skip`, `fetch_bytes`
or `fetch_all` never mutates any live allocation, so the other cursor keeps
both its position (a pure field) and the bytes it will later return. -/
theorem claim_C10_cursor_copy :
    (∀ f : Fetcher, Fetcher.copyCtor f = f) ∧
    (∀ (st : Store) (f : Fetcher), (Fetcher.fetch st f).2.1 = st) ∧
    (∀ (st : Store) (f : Fetcher) (count : Nat),
      (Fetcher.skip st f count).2.1 = st) ∧
    (∀ (st : Store) (f : Fetcher) (count a j : Nat), a < st.length →
      Store.readByte (Fetcher.fetch_bytes st f count).2.1 a j =
        Store.readByte st a j) ∧
    (∀ (st : Store) (f : Fetcher) (a j : Nat), a < st.length →
      Store.readByte (Fetcher.fetch_all st f).2.1 a j =
        Store.readByte st a j) ∧
    (∀ (st st2 : Store) (g : Fetcher),
      (∀ a j, a < st.length → Store.readByte st2 a j = Store.readByte st a j) →
      g.buf.alloc < st.length →
      Fetcher.remBytes st2 g = Fetcher.remBytes st g) := by
  refine ⟨fun f => rfl, ?_, ?_, ?_, ?_, ?_⟩
  · intro st f
    by_cases he : f.is_end
    · simp [Fetcher.fetch, he]
    · have hst : (Buffer.read_uint8 st f.buf f.cursor).2 = st :=
        read_uint8_store st f.buf f.cursor
      rcases hr : Buffer.read_uint8 st f.buf f.cursor with ⟨r, st1⟩
      have hst1 : st1 = st := by rw [hr] at hst; exact hst
      cases r <;> simp [Fetcher.fetch, he, hr, hst1]
  · intro st f count
    rw [Fetcher.skip]
    split
    · rfl
    · split
      · rfl
      · split <;> rfl
  · intro st f count a j hlt
    rw [Fetcher.fetch_bytes]
    split
    · simp only [Buffer.create, Store.allocate]
      exact Store.readByte_append_left st _ a j hlt
    · split
      · rfl
      · cases hs : Buffer.slice2 f.buf f.cursor count <;> simp [hs]
  · intro st f a j hlt
    rw [Fetcher.fetch_all]
    split
    · simp only [Buffer.create, Store.allocate]
      exact Store.readByte_append_left st _ a j hlt
    · cases hs : Buffer.slice1 f.buf f.cursor <;> simp [hs]
  · intro st st2 g hframe hg
    unfold Fetcher.remBytes Buffer.bytes
    congr 1
    apply List.map_congr_left
    intro k _
    show Store.readByte st2 g.buf.alloc (g.buf.start + k) =
      Store.readByte st g.buf.alloc (g.buf.start + k)
    exact hframe _ _ hg

/-- Witness for C10: on the concrete store `[[1, 2]]`, draining one cursor
with `fetch_all` leaves the byte a copied cursor reads unchanged. -/
theorem claim_C10_cursor_copy_witness :
    Store.readByte
        (Fetcher.fetch_all [[1, 2]] (Fetcher.ofBuffer ⟨0, 0, 2⟩)).2.1 0 1 =
      Store.readByte [[1, 2]] 0 1 :=
  claim_C10_cursor_copy.2.2.2.2.1 [[1, 2]] (Fetcher.ofBuffer ⟨0, 0, 2⟩) 0 1
    (by decide)


/-!  ## Queue support lemmas -/

theorem getD_drop {α : Type} (l : List α) (s i : Nat) (d : α) :
    (l.drop s).getD i d = l.getD (s + i) d := by
  simp [List.getElem?_drop]

theorem getD_append_right {α : Type} (l₁ l₂ : List α) (i : Nat) (d : α)
    (h : l₁.length ≤ i) : (l₁ ++ l₂).getD i d = l₂.getD (i - l₁.length) d := by
  simp [List.getElem?_append_right h]

theorem drop_append_ge {α : Type} (l₁ l₂ : List α) (n : Nat)
    (h : l₁.length ≤ n) : (l₁ ++ l₂).drop n = l₂.drop (n - l₁.length) := by
  induction l₁ generalizing n with
  | nil => simp
  | cons x xs ih =>
    cases n with
    | zero => simp at h
    | succ m => simpa using ih m (by simpa using h)

theorem drop_append_le {α : Type} (l₁ l₂ : List α) (n : Nat)
    (h : n ≤ l₁.length) : (l₁ ++ l₂).drop n = l₁.drop n ++ l₂ := by
  induction l₁ generalizing n with
  | nil =>
    simp at h
    simp [h]
  | cons x xs ih =>
    cases n with
    | zero => simp
    | succ m => simpa using ih m (by simpa using h)

theorem subW_eq (a b : Nat) (h1 : b ≤ a) (h2 : a < SIZE_W) :
    subW a b = a - b := by
  unfold subW SIZE_W at *
  omega

theorem slice1_spec (b : Buffer) (offset : Nat) (h1 : offset < b.len)
    (hW : b.len < SIZE_W) :
    b.slice1 offset = .ok ⟨b.alloc, b.start + offset, b.len - offset⟩ := by
  rw [Buffer.slice1, subW_eq _ _ (by omega) hW, Buffer.slice2,
    if_pos (Buffer.check_access_true_of _ _ _ (by omega) hW)]

theorem fetch_all_mid (st : Store) (f : Fetcher) (h1 : f.blen = f.buf.len)
    (hcur : f.cursor < f.blen) (hW : f.buf.len < SIZE_W) :
    Fetcher.fetch_all st f =
      (.ok ⟨f.buf.alloc, f.buf.start + f.cursor, f.buf.len - f.cursor⟩, st,
        { f with cursor := f.cursor + (f.buf.len - f.cursor) }) := by
  have he : f.is_end = false := by
    simp only [Fetcher.is_end, beq_eq_false_iff_ne, ne_eq]
    omega
  rw [Fetcher.fetch_all, he]
  rw [if_neg (by simp)]
  rw [slice1_spec f.buf f.cursor (by omega) hW]
  rfl

theorem advanceSegs_nil (n : Nat) (hn : 0 < n) : advanceSegs [] n = [] := by
  cases n with
  | zero => omega
  | succ m => rw [advanceSegs]

theorem advanceSegs_cons (f : Fetcher) (rest : List Fetcher) (n : Nat)
    (hn : 0 < n) :
    advanceSegs (f :: rest) n =
      if f.get_remaining_size ≤ n then
        advanceSegs rest (n - f.get_remaining_size)
      else { f with cursor := f.cursor + n } :: rest := by
  cases n with
  | zero => omega
  | succ m => rw [advanceSegs]

theorem fetch_bytes_spec (st : Store) (f : Fetcher) (count : Nat)
    (h1 : f.blen = f.buf.len) (hW : f.buf.len < SIZE_W) (hc0 : 0 < count)
    (hcr : count ≤ f.get_remaining_size) :
    Fetcher.fetch_bytes st f count =
      (.ok ⟨f.buf.alloc, f.buf.start + f.cursor, count⟩, st,
        { f with cursor := f.cursor + count }) := by
  have hcb : f.cursor + count ≤ f.buf.len := by
    unfold Fetcher.get_remaining_size at hcr
    omega
  rw [Fetcher.fetch_bytes, if_neg (by omega), if_neg (by omega), Buffer.slice2,
    if_pos (Buffer.check_access_true_of _ _ _ hcb hW)]

theorem copy1_ok (st : Store) (src dst : Buffer) (doff : Nat)
    (h : doff ≤ dst.len) :
    Buffer.copy1 st src dst doff =
      (.ok (min src.len (dst.len - doff)),
        Buffer.memcpyB st dst doff src 0 (min src.len (dst.len - doff))) := by
  rw [Buffer.copy1, if_neg (by omega)]

theorem advanceSegs_zero (fs : List Fetcher) : advanceSegs fs 0 = fs := by
  cases fs <;> rfl

theorem remBytes_length (st : Store) (f : Fetcher) (h1 : f.blen = f.buf.len) :
    (Fetcher.remBytes st f).length = f.get_remaining_size := by
  simp [Fetcher.remBytes, Buffer.bytes_length, Fetcher.get_remaining_size, h1]

theorem remBytes_getD (st : Store) (f : Fetcher) (i : Nat)
    (h1 : f.blen = f.buf.len) (hi : i < f.get_remaining_size) :
    (Fetcher.remBytes st f).getD i 0 =
      Store.readByte st f.buf.alloc (f.buf.start + (f.cursor + i)) := by
  unfold Fetcher.get_remaining_size at hi
  rw [Fetcher.remBytes, getD_drop, Buffer.bytes_getD st f.buf _ (by omega)]
  rfl

theorem segsBytes_cons (st : Store) (f : Fetcher) (rest : List Fetcher) :
    BufferQueue.segsBytes st (f :: rest) =
      Fetcher.remBytes st f ++ BufferQueue.segsBytes st rest := by
  simp [BufferQueue.segsBytes]

theorem sumRem_cons (f : Fetcher) (rest : List Fetcher) :
    BufferQueue.sumRem (f :: rest) =
      f.get_remaining_size + BufferQueue.sumRem rest := by
  simp [BufferQueue.sumRem]

theorem remBytes_frame (st st2 : Store) (f : Fetcher)
    (hframe : ∀ j, Store.readByte st2 f.buf.alloc j =
      Store.readByte st f.buf.alloc j) :
    Fetcher.remBytes st2 f = Fetcher.remBytes st f := by
  unfold Fetcher.remBytes Buffer.bytes
  congr 1
  apply List.map_congr_left
  intro k _
  exact hframe _

theorem segsBytes_frame (st st2 : Store) (fs : List Fetcher) (x : Nat)
    (hframe : ∀ a j, a ≠ x → Store.readByte st2 a j = Store.readByte st a j)
    (hmem : ∀ f ∈ fs, f.buf.alloc ≠ x) :
    BufferQueue.segsBytes st2 fs = BufferQueue.segsBytes st fs := by
  unfold BufferQueue.segsBytes
  congr 1
  apply List.map_congr_left
  intro f hf
  exact remBytes_frame st st2 f (fun j => hframe _ j (hmem f hf))

theorem segsBytes_length (st : Store) (fs : List Fetcher)
    (h : ∀ f ∈ fs, f.blen = f.buf.len) :
    (BufferQueue.segsBytes st fs).length = BufferQueue.sumRem fs := by
  induction fs with
  | nil => rfl
  | cons f rest ih =>
    rw [segsBytes_cons, sumRem_cons, List.length_append,
      remBytes_length st f (h f (by simp)), ih (fun g hg => h g (by simp [hg]))]

theorem advanceSegs_sum (fs : List Fetcher) (n : Nat)
    (hn : n ≤ BufferQueue.sumRem fs) :
    BufferQueue.sumRem (advanceSegs fs n) = BufferQueue.sumRem fs - n := by
  induction fs generalizing n with
  | nil =>
    cases n with
    | zero => rfl
    | succ m => simp [BufferQueue.sumRem] at hn
  | cons f rest ih =>
    cases n with
    | zero => rw [advanceSegs_zero]; omega
    | succ m =>
      rw [advanceSegs]
      rw [sumRem_cons] at hn
      by_cases hfr : f.get_remaining_size ≤ m + 1
      · rw [if_pos hfr, ih _ (by omega), sumRem_cons]
        omega
      · rw [if_neg hfr, sumRem_cons, sumRem_cons]
        unfold Fetcher.get_remaining_size at *
        simp only
        omega

theorem advanceSegs_inv (Q : Buffer → Prop) (fs : List Fetcher) (n : Nat)
    (hn : n ≤ BufferQueue.sumRem fs)
    (h : ∀ f ∈ fs, f.blen = f.buf.len ∧ f.cursor ≤ f.blen ∧
      0 < f.get_remaining_size ∧ Q f.buf) :
    ∀ f' ∈ advanceSegs fs n, f'.blen = f'.buf.len ∧ f'.cursor ≤ f'.blen ∧
      0 < f'.get_remaining_size ∧ Q f'.buf := by
  induction fs generalizing n with
  | nil =>
    cases n with
    | zero => intro f' hf'; rw [advanceSegs_zero] at hf'; simp at hf'
    | succ m => intro f' hf'; simp [advanceSegs] at hf'
  | cons f rest ih =>
    cases n with
    | zero => rw [advanceSegs_zero]; exact h
    | succ m =>
      rw [advanceSegs]
      rw [sumRem_cons] at hn
      by_cases hfr : f.get_remaining_size ≤ m + 1
      · rw [if_pos hfr]
        exact ih _ (by omega) (fun g hg => h g (by simp [hg]))
      · rw [if_neg hfr]
        intro f' hf'
        rcases List.mem_cons.mp hf' with hh | ht
        · obtain ⟨e1, e2, e3, e4⟩ := h f (by simp)
          subst hh
          refine ⟨e1, ?_, ?_, e4⟩ <;>
            (unfold Fetcher.get_remaining_size at *; simp only; omega)
        · exact h f' (by simp [ht])

theorem advanceSegs_bytes (st : Store) (fs : List Fetcher) (n : Nat)
    (hn : n ≤ BufferQueue.sumRem fs)
    (h : ∀ f ∈ fs, f.blen = f.buf.len) :
    BufferQueue.segsBytes st (advanceSegs fs n) =
      (BufferQueue.segsBytes st fs).drop n := by
  induction fs generalizing n with
  | nil =>
    cases n with
    | zero => rfl
    | succ m => simp [BufferQueue.sumRem] at hn
  | cons f rest ih =>
    cases n with
    | zero => rw [advanceSegs_zero]; rfl
    | succ m =>
      rw [advanceSegs]
      rw [sumRem_cons] at hn
      have hlen : (Fetcher.remBytes st f).length = f.get_remaining_size :=
        remBytes_length st f (h f (by simp))
      by_cases hfr : f.get_remaining_size ≤ m + 1
      · rw [if_pos hfr, segsBytes_cons,
          drop_append_ge _ _ _ (by omega), hlen,
          ih _ (by omega) (fun g hg => h g (by simp [hg]))]
      · rw [if_neg hfr, segsBytes_cons, segsBytes_cons,
          drop_append_le _ _ _ (by omega)]
        congr 1
        unfold Fetcher.remBytes
        simp only
        rw [← List.drop_drop]


theorem popLoop_base (res : Buffer) (size : Nat) (st : Store)
    (fs : List Fetcher) (cursor : Nat) (h : size ≤ cursor) :
    BufferQueue.popLoop res size st fs cursor = (.ok (), st, fs) := by
  rw [BufferQueue.popLoop.eq_def]
  simp only []
  rw [if_pos h]

theorem popLoop_nil (res : Buffer) (size : Nat) (st : Store) (cursor : Nat)
    (h : ¬ size ≤ cursor) :
    BufferQueue.popLoop res size st [] cursor = (.ok (), st, []) := by
  rw [BufferQueue.popLoop.eq_def]
  simp only []
  rw [if_neg h]

theorem popLoop_cons (res : Buffer) (size : Nat) (st : Store) (f : Fetcher)
    (rest : List Fetcher) (cursor : Nat) (h : ¬ size ≤ cursor) :
    BufferQueue.popLoop res size st (f :: rest) cursor =
      if f.get_remaining_size ≤ size - cursor then
        match Fetcher.fetch_all st f with
        | (.ok chunk, st1, _) =>
          match Buffer.copy1 st1 chunk res cursor with
          | (.ok _, st2) =>
            BufferQueue.popLoop res size st2 rest (cursor + f.get_remaining_size)
          | (.error e, st2) => (.error e, st2, f :: rest)
        | (.error e, st1, f1) => (.error e, st1, f1 :: rest)
      else
        match Fetcher.fetch_bytes st f (size - cursor) with
        | (.ok chunk, st1, f1) =>
          match Buffer.copy1 st1 chunk res cursor with
          | (.ok _, st2) =>
            BufferQueue.popLoop res size st2 (f1 :: rest) (cursor + (size - cursor))
          | (.error e, st2) => (.error e, st2, f1 :: rest)
        | (.error e, st1, f1) => (.error e, st1, f1 :: rest) := by
  rw [BufferQueue.popLoop.eq_def]
  simp only []
  rw [if_neg h]

theorem popLoop_spec (res : Buffer) (size : Nat) (st : Store)
    (fs : List Fetcher) (cursor : Nat) :
    (res.alloc < st.length ∧ res.start + res.len ≤ st.allocLen res.alloc ∧
      res.len = size) →
    (∀ f ∈ fs, f.blen = f.buf.len ∧ f.cursor ≤ f.blen ∧ f.buf.wf st ∧
      f.buf.alloc ≠ res.alloc ∧ 0 < f.get_remaining_size) →
    cursor ≤ size → size - cursor ≤ BufferQueue.sumRem fs →
    (BufferQueue.popLoop res size st fs cursor).1 = .ok () ∧
    (BufferQueue.popLoop res size st fs cursor).2.1.length = st.length ∧
    (∀ a, Store.allocLen (BufferQueue.popLoop res size st fs cursor).2.1 a =
      Store.allocLen st a) ∧
    (∀ a j, (a ≠ res.alloc ∨ j < res.start + cursor ∨ res.start + size ≤ j) →
      Store.readByte (BufferQueue.popLoop res size st fs cursor).2.1 a j =
        Store.readByte st a j) ∧
    (∀ i, i < size - cursor →
      Store.readByte (BufferQueue.popLoop res size st fs cursor).2.1 res.alloc
          (res.start + cursor + i) =
        (BufferQueue.segsBytes st fs).getD i 0) ∧
    (BufferQueue.popLoop res size st fs cursor).2.2 =
      advanceSegs fs (size - cursor) := by
  induction st, fs, cursor using BufferQueue.popLoop.induct res size with
  | case1 st fs cursor hle =>
    intro hres hq hc hs
    rw [popLoop_base _ _ _ _ _ hle]
    have h0 : size - cursor = 0 := by omega
    refine ⟨rfl, rfl, fun a => rfl, fun a j _ => rfl, ?_, ?_⟩
    · intro i hi
      exact absurd hi (by omega)
    · rw [h0, advanceSegs_zero]
  | case2 st cursor hnot =>
    intro hres hq hc hs
    exfalso
    simp [BufferQueue.sumRem] at hs
    omega
  | case3 st cursor hnot f rest needed frem hfr0 chunk st1 fsnd heq v st2 heq2 ih =>
    intro hres hq hc hs
    have hfr : f.get_remaining_size ≤ size - cursor := hfr0
    obtain ⟨hra, hrb, hrl⟩ := hres
    obtain ⟨e1, e2, ⟨fa, fb, fW⟩, fne, fpos⟩ := hq f (by simp)
    have hlt : f.cursor < f.blen := by
      unfold Fetcher.get_remaining_size at fpos
      omega
    have hrem : f.get_remaining_size = f.buf.len - f.cursor := by
      unfold Fetcher.get_remaining_size
      omega
    have hmid := fetch_all_mid st f e1 hlt fW
    rw [heq] at hmid
    simp only [Prod.mk.injEq, Except.ok.injEq] at hmid
    obtain ⟨hchunk, hst1, -⟩ := hmid
    rw [hst1] at heq heq2
    have hcpy := copy1_ok st chunk res cursor (by omega)
    rw [heq2] at hcpy
    simp only [Prod.mk.injEq, Except.ok.injEq] at hcpy
    obtain ⟨hv, hst2⟩ := hcpy
    have hclen : chunk.len = f.get_remaining_size := by
      rw [hchunk, hrem]
    have hmin : min chunk.len (res.len - cursor) = f.get_remaining_size := by
      rw [hclen]
      omega
    rw [hmin] at hst2
    rw [sumRem_cons] at hs
    have hfrem : frem = f.get_remaining_size := rfl
    rw [hfrem] at ih
    -- instantiate the induction hypothesis
    have IH := ih
      (by
        refine ⟨?_, ?_, hrl⟩
        · rw [hst2, Buffer.length_memcpyB]; exact hra
        · rw [hst2, Buffer.allocLen_memcpyB]; exact hrb)
      (by
        intro g hg
        obtain ⟨g1, g2, ⟨ga, gb, gW⟩, gne, gpos⟩ :=
          hq g (List.mem_cons_of_mem _ hg)
        refine ⟨g1, g2, ⟨?_, ?_, gW⟩, gne, gpos⟩
        · rw [hst2, Buffer.length_memcpyB]; exact ga
        · rw [hst2, Buffer.allocLen_memcpyB]; exact gb)
      (by omega) (by omega)
    obtain ⟨IH1, IH2, IH3, IH4, IH5, IH6⟩ := IH
    -- reduce the loop body
    have hpop : BufferQueue.popLoop res size st (f :: rest) cursor =
        BufferQueue.popLoop res size st2 rest (cursor + f.get_remaining_size) := by
      rw [popLoop_cons _ _ _ _ _ _ hnot, if_pos hfr, heq]
      simp only []
      rw [heq2]
    rw [hpop]
    -- frame of the memcpy step
    have hframe : ∀ a j,
        (a ≠ res.alloc ∨ j < res.start + cursor ∨
          res.start + (cursor + f.get_remaining_size) ≤ j) →
        Store.readByte st2 a j = Store.readByte st a j := by
      intro a j hcond
      rw [hst2]
      apply Buffer.readByte_memcpyB_outside
      rcases hcond with h | h | h
      · exact Or.inl h
      · exact Or.inr (Or.inl h)
      · exact Or.inr (Or.inr (by omega))
    refine ⟨IH1, ?_, ?_, ?_, ?_, ?_⟩
    · rw [IH2, hst2, Buffer.length_memcpyB]
    · intro a
      rw [IH3, hst2, Buffer.allocLen_memcpyB]
    · intro a j hcond
      have hcond2 : a ≠ res.alloc ∨
          j < res.start + (cursor + f.get_remaining_size) ∨
          res.start + size ≤ j := by
        rcases hcond with h | h | h
        exacts [Or.inl h, Or.inr (Or.inl (by omega)), Or.inr (Or.inr h)]
      rw [IH4 a j hcond2]
      apply hframe
      rcases hcond with h | h | h
      exacts [Or.inl h, Or.inr (Or.inl h), Or.inr (Or.inr (by omega))]
    · intro i hi
      rw [segsBytes_cons, ]
      by_cases hsm : i < f.get_remaining_size
      · -- inside the drained head
        rw [IH4 res.alloc (res.start + cursor + i)
          (Or.inr (Or.inl (by omega)))]
        rw [hst2]
        have hrd := Buffer.readByte_memcpyB_inside st res cursor chunk 0
          f.get_remaining_size i hra hsm
          (by rw [hchunk, hrem]
              simp only
              omega)
          (by omega)
        rw [hrd]
        rw [getD_append_left _ _ _ _ (by rw [remBytes_length st f e1]; omega),
          remBytes_getD st f i e1 hsm]
        rw [hchunk]
        simp only
        congr 1
        omega
      · -- inside the remaining segments
        have hpos : res.start + cursor + i =
            res.start + (cursor + f.get_remaining_size) +
              (i - f.get_remaining_size) := by omega
        rw [hpos, IH5 _ (by omega)]
        rw [segsBytes_frame st st2 rest res.alloc
          (fun a j ha => hframe a j (Or.inl ha))
          (fun g hg => (hq g (List.mem_cons_of_mem _ hg)).2.2.2.1)]
        rw [getD_append_right _ _ _ _ (by rw [remBytes_length st f e1]; omega),
          remBytes_length st f e1]
    · rw [IH6, advanceSegs_cons f rest _ (by omega), if_pos (by omega)]
      congr 1
      omega
  | case4 st cursor hnot f rest needed frem hfr0 chunk st1 fsnd heq e st2 heq2 =>
    intro hres hq hc hs
    have hfr : f.get_remaining_size ≤ size - cursor := hfr0
    exfalso
    obtain ⟨hra, hrb, hrl⟩ := hres
    obtain ⟨e1, e2, ⟨fa, fb, fW⟩, fne, fpos⟩ := hq f (by simp)
    have hlt : f.cursor < f.blen := by
      unfold Fetcher.get_remaining_size at fpos
      omega
    have hmid := fetch_all_mid st f e1 hlt fW
    rw [heq] at hmid
    simp only [Prod.mk.injEq, Except.ok.injEq] at hmid
    obtain ⟨hchunk, hst1, -⟩ := hmid
    rw [hst1] at heq2
    have hcpy := copy1_ok st chunk res cursor (by omega)
    rw [heq2] at hcpy
    simp at hcpy
  | case5 st cursor hnot f rest needed frem hfr0 e st1 f1 heq =>
    intro hres hq hc hs
    exfalso
    obtain ⟨e1, e2, ⟨fa, fb, fW⟩, fne, fpos⟩ := hq f (by simp)
    have hlt : f.cursor < f.blen := by
      unfold Fetcher.get_remaining_size at fpos
      omega
    have hmid := fetch_all_mid st f e1 hlt fW
    rw [heq] at hmid
    simp at hmid
  | case6 st cursor hnot f rest needed frem hfr0 chunk st1 fsnd heq v st2 heq2 ih =>
    intro hres hq hc hs
    have hfr : ¬ f.get_remaining_size ≤ size - cursor := hfr0
    obtain ⟨hra, hrb, hrl⟩ := hres
    obtain ⟨e1, e2, ⟨fa, fb, fW⟩, fne, fpos⟩ := hq f (by simp)
    have heqN : Fetcher.fetch_bytes st f (size - cursor) = _ := heq
    have hspec := fetch_bytes_spec st f (size - cursor) e1 fW (by omega)
      (by omega)
    rw [heqN] at hspec
    simp only [Prod.mk.injEq, Except.ok.injEq] at hspec
    obtain ⟨hchunk, hst1, hfsnd⟩ := hspec
    rw [hst1] at heqN heq2
    have hcpy := copy1_ok st chunk res cursor (by omega)
    rw [heq2] at hcpy
    simp only [Prod.mk.injEq, Except.ok.injEq] at hcpy
    obtain ⟨hv, hst2⟩ := hcpy
    have hclen : chunk.len = size - cursor := by rw [hchunk]
    have hmin : min chunk.len (res.len - cursor) = size - cursor := by
      rw [hclen]
      omega
    rw [hmin] at hst2
    rw [sumRem_cons] at hs
    have hneed : needed = size - cursor := rfl
    rw [hneed] at ih
    have hrem2 : fsnd.get_remaining_size =
        f.get_remaining_size - (size - cursor) := by
      rw [hfsnd]
      unfold Fetcher.get_remaining_size
      simp only
      omega
    have IH := ih
      (by
        refine ⟨?_, ?_, hrl⟩
        · rw [hst2, Buffer.length_memcpyB]; exact hra
        · rw [hst2, Buffer.allocLen_memcpyB]; exact hrb)
      (by
        intro g hg
        rcases List.mem_cons.mp hg with hh | ht
        · subst hh
          rw [hfsnd]
          refine ⟨e1, ?_, ⟨?_, ?_, fW⟩, fne, ?_⟩
          · simp only
            unfold Fetcher.get_remaining_size at hfr
            omega
          · rw [hst2, Buffer.length_memcpyB]; exact fa
          · rw [hst2, Buffer.allocLen_memcpyB]; exact fb
          · show 0 < Fetcher.get_remaining_size _
            unfold Fetcher.get_remaining_size at hfr ⊢
            simp only
            omega
        · obtain ⟨g1, g2, ⟨ga, gb, gW⟩, gne, gpos⟩ :=
            hq g (List.mem_cons_of_mem _ ht)
          refine ⟨g1, g2, ⟨?_, ?_, gW⟩, gne, gpos⟩
          · rw [hst2, Buffer.length_memcpyB]; exact ga
          · rw [hst2, Buffer.allocLen_memcpyB]; exact gb)
      (by omega) (by omega)
    obtain ⟨IH1, IH2, IH3, IH4, IH5, IH6⟩ := IH
    have hpop : BufferQueue.popLoop res size st (f :: rest) cursor =
        BufferQueue.popLoop res size st2 (fsnd :: rest)
          (cursor + (size - cursor)) := by
      rw [popLoop_cons _ _ _ _ _ _ hnot, if_neg hfr, heqN]
      simp only []
      rw [heq2]
    rw [hpop]
    have hframe : ∀ a j,
        (a ≠ res.alloc ∨ j < res.start + cursor ∨ res.start + size ≤ j) →
        Store.readByte st2 a j = Store.readByte st a j := by
      intro a j hcond
      rw [hst2]
      apply Buffer.readByte_memcpyB_outside
      rcases hcond with h | h | h
      · exact Or.inl h
      · exact Or.inr (Or.inl h)
      · exact Or.inr (Or.inr (by omega))
    refine ⟨IH1, ?_, ?_, ?_, ?_, ?_⟩
    · rw [IH2, hst2, Buffer.length_memcpyB]
    · intro a
      rw [IH3, hst2, Buffer.allocLen_memcpyB]
    · intro a j hcond
      have hcond2 : a ≠ res.alloc ∨
          j < res.start + (cursor + (size - cursor)) ∨
          res.start + size ≤ j := by
        rcases hcond with h | h | h
        exacts [Or.inl h, Or.inr (Or.inl (by omega)), Or.inr (Or.inr h)]
      rw [IH4 a j hcond2]
      exact hframe a j hcond
    · intro i hi
      rw [segsBytes_cons]
      have hin : i < size - cursor := by omega
      rw [IH4 res.alloc (res.start + cursor + i)
        (Or.inr (Or.inl (by omega)))]
      rw [hst2]
      have hrd := Buffer.readByte_memcpyB_inside st res cursor chunk 0
        (size - cursor) i hra hin
        (by rw [hchunk]
            simp only
            unfold Fetcher.get_remaining_size at hfr
            omega)
        (by omega)
      rw [hrd]
      rw [getD_append_left _ _ _ _
        (by rw [remBytes_length st f e1]; omega),
        remBytes_getD st f i e1 (by omega)]
      rw [hchunk]
      simp only
      congr 1
      omega
    · rw [IH6]
      have hz : size - (cursor + (size - cursor)) = 0 := by omega
      rw [hz, advanceSegs_zero,
        advanceSegs_cons f rest _ (by omega), if_neg (by omega)]
      rw [hfsnd]
  | case7 st cursor hnot f rest needed frem hfr0 chunk st1 fsnd heq e st2 heq2 =>
    intro hres hq hc hs
    have hfr : ¬ f.get_remaining_size ≤ size - cursor := hfr0
    exfalso
    obtain ⟨hra, hrb, hrl⟩ := hres
    obtain ⟨e1, e2, ⟨fa, fb, fW⟩, fne, fpos⟩ := hq f (by simp)
    have heqN : Fetcher.fetch_bytes st f (size - cursor) = _ := heq
    have hspec := fetch_bytes_spec st f (size - cursor) e1 fW (by omega)
      (by omega)
    rw [heqN] at hspec
    simp only [Prod.mk.injEq, Except.ok.injEq] at hspec
    obtain ⟨hchunk, hst1, -⟩ := hspec
    rw [hst1] at heq2
    have hcpy := copy1_ok st chunk res cursor (by omega)
    rw [heq2] at hcpy
    simp at hcpy
  | case8 st cursor hnot f rest needed frem hfr0 e st1 f1 heq =>
    intro hres hq hc hs
    have hfr : ¬ f.get_remaining_size ≤ size - cursor := hfr0
    exfalso
    obtain ⟨e1, e2, ⟨fa, fb, fW⟩, fne, fpos⟩ := hq f (by simp)
    have heqN : Fetcher.fetch_bytes st f (size - cursor) = _ := heq
    have hspec := fetch_bytes_spec st f (size - cursor) e1 fW (by omega)
      (by omega)
    rw [heqN] at hspec
    simp at hspec

theorem list_eq_of_getD (l1 l2 : List Nat) (hlen : l1.length = l2.length)
    (h : ∀ i, i < l1.length → l1.getD i 0 = l2.getD i 0) : l1 = l2 := by
  apply List.ext_getElem hlen
  intro i h1 h2
  have hh := h i h1
  simp only [List.getD_eq_getElem?_getD, List.getElem?_eq_getElem h1,
    List.getElem?_eq_getElem h2] at hh
  simpa using hh

theorem getD_out_of_range {α : Type} (l : List α) (i : Nat) (d : α)
    (h : l.length ≤ i) : l.getD i d = d := by
  rw [List.getD_eq_getElem?_getD, List.getElem?_eq_none h]
  rfl

theorem readByte_append_all (st : Store) (x : Alloc) (a i : Nat)
    (h : a ≠ st.length) : Store.readByte (st ++ [x]) a i = st.readByte a i := by
  by_cases hlt : a < st.length
  · exact Store.readByte_append_left st x a i hlt
  · have h1 : (st ++ [x]).getD a [] = [] := by
      apply getD_out_of_range
      simp
      omega
    have h2 : st.getD a [] = [] := by
      apply getD_out_of_range
      omega
    unfold Store.readByte
    rw [h1, h2]

theorem getD_take {α : Type} (l : List α) (n i : Nat) (d : α) (h : i < n) :
    (l.take n).getD i d = l.getD i d := by
  simp [List.getElem?_take_of_lt h]

theorem pop_spec (st : Store) (q : BufferQueue) (size : Nat)
    (hinv : BufferQueue.QInv st q) (hsz : size ≤ q.remaining) :
    ∃ st2 : Store,
      BufferQueue.pop st q size =
        (.ok ⟨st.length, 0, size⟩, st2,
          ⟨q.remaining - size, advanceSegs q.queue size⟩) ∧
      st2.length = st.length + 1 ∧
      Buffer.bytes st2 ⟨st.length, 0, size⟩ =
        (BufferQueue.queueBytes st q).take size ∧
      BufferQueue.queueBytes st2
          ⟨q.remaining - size, advanceSegs q.queue size⟩ =
        (BufferQueue.queueBytes st q).drop size ∧
      BufferQueue.QInv st2
        ⟨q.remaining - size, advanceSegs q.queue size⟩ := by
  obtain ⟨hrem, hseg⟩ := hinv
  have hm : size ≤ (if size = 0 then 1 else size) := by split <;> omega
  have habs : Store.allocLen
      (st ++ [List.replicate (if size = 0 then 1 else size) 0]) st.length =
      (if size = 0 then 1 else size) := by
    unfold Store.allocLen
    rw [getD_append_right _ _ _ _ (le_refl _)]
    simp
  have hsum : BufferQueue.sumRem q.queue = q.remaining := hrem.symm
  have hlenB : (BufferQueue.segsBytes st q.queue).length = q.remaining := by
    rw [segsBytes_length st q.queue (fun f hf => (hseg f hf).1.1), hsum]
  have hext : ∀ a j, a ≠ st.length →
      Store.readByte (st ++ [List.replicate (if size = 0 then 1 else size) 0]) a j =
        Store.readByte st a j :=
    fun a j ha => readByte_append_all st _ a j ha
  have hsegext : BufferQueue.segsBytes
      (st ++ [List.replicate (if size = 0 then 1 else size) 0]) q.queue =
      BufferQueue.segsBytes st q.queue :=
    segsBytes_frame st _ q.queue st.length hext
      (fun f hf => Nat.ne_of_lt (hseg f hf).1.2.2.1)
  have HL := popLoop_spec ⟨st.length, 0, size⟩ size
    (st ++ [List.replicate (if size = 0 then 1 else size) 0]) q.queue 0
    (by
      refine ⟨?_, ?_, rfl⟩
      · show st.length < (st ++ [List.replicate (if size = 0 then 1 else size) 0]).length
        simp
      · show 0 + size ≤ Store.allocLen
          (st ++ [List.replicate (if size = 0 then 1 else size) 0]) st.length
        rw [habs]
        omega)
    (by
      intro f hf
      obtain ⟨⟨w1, w2, wa, wb, wc⟩, wpos⟩ := hseg f hf
      refine ⟨w1, w2, ⟨?_, ?_, wc⟩, ?_, wpos⟩
      · show f.buf.alloc <
          (st ++ [List.replicate (if size = 0 then 1 else size) 0]).length
        simp
        omega
      · show f.buf.start + f.buf.len ≤ Store.allocLen
          (st ++ [List.replicate (if size = 0 then 1 else size) 0]) f.buf.alloc
        rw [Store.allocLen_append_left st _ _ wa]
        exact wb
      · show f.buf.alloc ≠ st.length
        omega)
    (by omega) (by omega)
  obtain ⟨L1, L2, L3, L4, L5, L6⟩ := HL
  rcases hR : BufferQueue.popLoop ⟨st.length, 0, size⟩ size
    (st ++ [List.replicate (if size = 0 then 1 else size) 0]) q.queue 0
    with ⟨r1, st2, rest⟩
  rw [hR] at L1 L2 L3 L4 L5 L6
  simp only [] at L1 L2 L3 L4 L5 L6
  subst L1
  rw [Nat.sub_zero] at L6
  subst L6
  refine ⟨st2, ?_, ?_, ?_, ?_, ?_⟩
  · rw [BufferQueue.pop, if_neg (by omega)]
    simp only [Buffer.create, Store.allocate]
    rw [hR]
  · rw [L2]
    simp
  · apply list_eq_of_getD
    · rw [Buffer.bytes_length]
      show size = ((BufferQueue.queueBytes st q).take size).length
      unfold BufferQueue.queueBytes
      rw [List.length_take, hlenB]
      omega
    · intro i hi
      rw [Buffer.bytes_length] at hi
      have hi2 : i < size := hi
      show (Buffer.bytes st2 ⟨st.length, 0, size⟩).getD i 0 = _
      rw [Buffer.bytes_getD st2 _ i hi]
      have hL5 := L5 i (by omega)
      simp only [Nat.zero_add] at hL5
      show Store.readByte st2 st.length (0 + i) = _
      rw [Nat.zero_add, hL5, hsegext]
      unfold BufferQueue.queueBytes
      rw [getD_take _ _ _ _ hi2]
  · show BufferQueue.segsBytes st2 (advanceSegs q.queue size) = _
    rw [advanceSegs_bytes st2 q.queue size (by omega)
      (fun f hf => (hseg f hf).1.1)]
    have hs2 : BufferQueue.segsBytes st2 q.queue =
        BufferQueue.segsBytes st q.queue := by
      rw [← hsegext]
      apply segsBytes_frame _ _ _ st.length
      · intro a j ha
        exact L4 a j (Or.inl ha)
      · exact fun f hf => Nat.ne_of_lt (hseg f hf).1.2.2.1
    rw [hs2]
    rfl
  · constructor
    · show q.remaining - size = BufferQueue.sumRem (advanceSegs q.queue size)
      rw [advanceSegs_sum q.queue size (by omega)]
      omega
    · intro f' hf'
      have hstep := advanceSegs_inv (fun b => b.wf st2) q.queue size (by omega)
        (by
          intro g hg
          obtain ⟨⟨g1, g2, ga, gb, gc⟩, gpos⟩ := hseg g hg
          refine ⟨g1, g2, gpos, ?_, ?_, gc⟩
          · rw [L2]
            simp
            omega
          · rw [L3, Store.allocLen_append_left st _ _ ga]
            exact gb)
        f' hf'
      obtain ⟨p1, p2, p3, p4⟩ := hstep
      exact ⟨⟨p1, p2, p4⟩, p3⟩

theorem sumRem_append (fs : List Fetcher) (g : Fetcher) :
    BufferQueue.sumRem (fs ++ [g]) =
      BufferQueue.sumRem fs + g.get_remaining_size := by
  simp [BufferQueue.sumRem]

theorem popAllLoop_ok (out : Buffer) (fs : List Fetcher) :
    ∀ (st : Store) (cursor : Nat),
      (∀ f ∈ fs, f.blen = f.buf.len ∧ f.cursor ≤ f.blen ∧
        f.buf.len < SIZE_W ∧ 0 < f.get_remaining_size) →
      cursor + BufferQueue.sumRem fs ≤ out.len →
      (BufferQueue.popAllLoop out st fs cursor).1 = .ok () ∧
      (BufferQueue.popAllLoop out st fs cursor).2.2 = [] := by
  induction fs with
  | nil =>
    intro st cursor h hc
    exact ⟨rfl, rfl⟩
  | cons f rest ih =>
    intro st cursor h hc
    obtain ⟨e1, e2, fW, fpos⟩ := h f (by simp)
    have hlt : f.cursor < f.blen := by
      unfold Fetcher.get_remaining_size at fpos
      omega
    have hmid := fetch_all_mid st f e1 hlt fW
    rw [sumRem_cons] at hc
    rw [BufferQueue.popAllLoop, hmid]
    simp only []
    rw [copy1_ok st _ out cursor (by omega)]
    simp only []
    exact ih _ _ (fun g hg => h g (by simp [hg])) (by omega)

theorem pop_all_queue (st : Store) (q : BufferQueue)
    (hinv : BufferQueue.QInv st q) :
    (BufferQueue.pop_all st q).2.2 = ⟨0, []⟩ := by
  obtain ⟨hrem, hseg⟩ := hinv
  have H := popAllLoop_ok ⟨st.length, 0, q.remaining⟩ q.queue
    (st ++ [List.replicate (if q.remaining = 0 then 1 else q.remaining) 0]) 0
    (by
      intro f hf
      obtain ⟨⟨w1, w2, wa, wb, wc⟩, wpos⟩ := hseg f hf
      exact ⟨w1, w2, wc, wpos⟩)
    (by
      show 0 + BufferQueue.sumRem q.queue ≤ q.remaining
      omega)
  obtain ⟨H1, H2⟩ := H
  rcases hR : BufferQueue.popAllLoop ⟨st.length, 0, q.remaining⟩
    (st ++ [List.replicate (if q.remaining = 0 then 1 else q.remaining) 0])
    q.queue 0 with ⟨r1, st2, rest⟩
  rw [hR] at H1 H2
  simp only [] at H1 H2
  subst H1
  subst H2
  rw [BufferQueue.pop_all]
  simp only [Buffer.create, Store.allocate]
  rw [hR]

theorem reach_QInv (st : Store) (q : BufferQueue)
    (h : BufferQueue.Reach st q) : BufferQueue.QInv st q := by
  induction h with
  | init st =>
    refine ⟨rfl, ?_⟩
    intro f hf
    simp [BufferQueue.empty] at hf
  | ext a h ih =>
    obtain ⟨h1, h2⟩ := ih
    refine ⟨h1, ?_⟩
    intro f hf
    obtain ⟨⟨w1, w2, wa, wb, wc⟩, wpos⟩ := h2 f hf
    refine ⟨⟨w1, w2, ?_, ?_, wc⟩, wpos⟩
    · simp
      omega
    · rwa [Store.allocLen_append_left _ _ _ wa]
  | push data h hwf ih =>
    rename_i st0 q0
    obtain ⟨h1, h2⟩ := ih
    by_cases hz : data.get_length = 0
    · rw [BufferQueue.push, if_pos hz]
      exact ⟨h1, h2⟩
    · rw [BufferQueue.push, if_neg hz]
      refine ⟨?_, ?_⟩
      · show q0.remaining + data.get_length =
          BufferQueue.sumRem (q0.queue ++ [Fetcher.ofBuffer data])
        rw [sumRem_append, ← h1]
        rfl
      · intro f hf
        rcases List.mem_append.mp hf with hm | hm
        · exact h2 f hm
        · have : f = Fetcher.ofBuffer data := by simpa using hm
          subst this
          refine ⟨⟨rfl, Nat.zero_le _, hwf⟩, ?_⟩
          show 0 < data.get_length - 0
          unfold Buffer.get_length at hz ⊢
          omega
  | pop size h ih =>
    rename_i st0 q0
    by_cases hlt : q0.remaining < size
    · rw [BufferQueue.pop, if_pos hlt]
      exact ih
    · obtain ⟨st2, heq, _, _, _, hq⟩ := pop_spec st0 q0 size ih (by omega)
      rw [heq]
      exact hq
  | pop_all h ih =>
    rename_i st0 q0
    rw [pop_all_queue st0 q0 ih]
    refine ⟨rfl, ?_⟩
    intro f hf
    simp at hf

theorem copy2_err (st : Store) (s d : Buffer) (doff soff : Nat) (e : Err)
    (h : (Buffer.copy2 st s d doff soff).1 = .error e) :
    (Buffer.copy2 st s d doff soff).2 = st := by
  by_cases h1 : d.len < doff
  · simp [Buffer.copy2, h1]
  · by_cases h2 : s.len < soff
    · simp [Buffer.copy2, h1, h2]
    · simp [Buffer.copy2, h1, h2] at h

/-- Claim C9: whenever a buffer, cursor or queue operation fails with
OutOfRange, the target state is observably unchanged by the failed call:
no byte of any allocation is written, no cursor advances, no segment is
removed and the remaining count of the queue is untouched.  Every bounds
check in the source precedes every mutation of the operation. -/
theorem claim_C9_error_no_mutation :
    (∀ (st : Store) (b : Buffer) (offset : Nat) (e : Err),
      (Buffer.read_uint8 st b offset).1 = .error e →
      (Buffer.read_uint8 st b offset).2 = st) ∧
    (∀ (st : Store) (b : Buffer) (v offset : Nat) (e : Err),
      (Buffer.write_uint8 st b v offset).1 = .error e →
      (Buffer.write_uint8 st b v offset).2 = st) ∧
    (∀ (st : Store) (b : Buffer) (v offset : Nat) (e : Err),
      (Buffer.write_uint16_be st b v offset).1 = .error e →
      (Buffer.write_uint16_be st b v offset).2 = st) ∧
    (∀ (st : Store) (b : Buffer) (v offset : Nat) (e : Err),
      (Buffer.write_uint16_le st b v offset).1 = .error e →
      (Buffer.write_uint16_le st b v offset).2 = st) ∧
    (∀ (st : Store) (b : Buffer) (v offset : Nat) (e : Err),
      (Buffer.write_uint32_be st b v offset).1 = .error e →
      (Buffer.write_uint32_be st b v offset).2 = st) ∧
    (∀ (st : Store) (b : Buffer) (v offset : Nat) (e : Err),
      (Buffer.write_uint32_le st b v offset).1 = .error e →
      (Buffer.write_uint32_le st b v offset).2 = st) ∧
    (∀ (st : Store) (b : Buffer) (v offset : Nat) (e : Err),
      (Buffer.write_uint64_be st b v offset).1 = .error e →
      (Buffer.write_uint64_be st b v offset).2 = st) ∧
    (∀ (st : Store) (b : Buffer) (v offset : Nat) (e : Err),
      (Buffer.write_uint64_le st b v offset).1 = .error e →
      (Buffer.write_uint64_le st b v offset).2 = st) ∧
    (∀ (st : Store) (b : Buffer) (v offset length : Nat) (e : Err),
      (Buffer.fill3 st b v offset length).1 = .error e →
      (Buffer.fill3 st b v offset length).2 = st) ∧
    (∀ (st : Store) (s d : Buffer) (doff : Nat) (e : Err),
      (Buffer.copy1 st s d doff).1 = .error e →
      (Buffer.copy1 st s d doff).2 = st) ∧
    (∀ (st : Store) (s d : Buffer) (doff soff : Nat) (e : Err),
      (Buffer.copy2 st s d doff soff).1 = .error e →
      (Buffer.copy2 st s d doff soff).2 = st) ∧
    (∀ (st : Store) (f : Fetcher) (e : Err), f.blen = f.buf.len →
      f.cursor ≤ f.blen → f.buf.len < SIZE_W →
      (Fetcher.fetch st f).1 = .error e →
      (Fetcher.fetch st f).2 = (st, f)) ∧
    (∀ (st : Store) (f : Fetcher) (dst : Buffer) (doff : Nat) (e : Err),
      (Fetcher.fetch_to st f dst doff).1 = .error e →
      (Fetcher.fetch_to st f dst doff).2 = (st, f)) ∧
    (∀ (st : Store) (f : Fetcher) (count : Nat) (e : Err),
      f.blen = f.buf.len → f.cursor ≤ f.blen → f.buf.len < SIZE_W →
      (Fetcher.fetch_bytes st f count).1 = .error e →
      (Fetcher.fetch_bytes st f count).2 = (st, f)) ∧
    (∀ (st : Store) (f : Fetcher) (count : Nat) (e : Err),
      (Fetcher.skip st f count).1 = .error e →
      (Fetcher.skip st f count).2 = (st, f)) ∧
    (∀ (st : Store) (q : BufferQueue) (size : Nat) (e : Err),
      BufferQueue.QInv st q →
      (BufferQueue.pop st q size).1 = .error e →
      (BufferQueue.pop st q size).2 = (st, q)) := by
  refine ⟨?_, ?_, ?_, ?_, ?_, ?_, ?_, ?_, ?_, ?_, ?_, ?_, ?_, ?_, ?_, ?_⟩
  · intro st b offset e h
    cases hc : b.check_access offset 1 with
    | false => simp [Buffer.read_uint8, hc]
    | true => simp [Buffer.read_uint8, hc] at h
  · intro st b v offset e h
    cases hc : b.check_access offset 1 with
    | false => simp [Buffer.write_uint8, hc]
    | true => simp [Buffer.write_uint8, hc] at h
  · intro st b v offset e h
    cases hc : b.check_access offset 2 with
    | false => simp [Buffer.write_uint16_be, hc]
    | true => simp [Buffer.write_uint16_be, hc] at h
  · intro st b v offset e h
    cases hc : b.check_access offset 2 with
    | false => simp [Buffer.write_uint16_le, hc]
    | true => simp [Buffer.write_uint16_le, hc] at h
  · intro st b v offset e h
    cases hc : b.check_access offset 4 with
    | false => simp [Buffer.write_uint32_be, hc]
    | true => simp [Buffer.write_uint32_be, hc] at h
  · intro st b v offset e h
    cases hc : b.check_access offset 4 with
    | false => simp [Buffer.write_uint32_le, hc]
    | true => simp [Buffer.write_uint32_le, hc] at h
  · intro st b v offset e h
    cases hc : b.check_access offset 8 with
    | false => simp [Buffer.write_uint64_be, hc]
    | true => simp [Buffer.write_uint64_be, hc] at h
  · intro st b v offset e h
    cases hc : b.check_access offset 8 with
    | false => simp [Buffer.write_uint64_le, hc]
    | true => simp [Buffer.write_uint64_le, hc] at h
  · intro st b v offset length e h
    cases hc : b.check_access offset length with
    | false => simp [Buffer.fill3, hc]
    | true => simp [Buffer.fill3, hc] at h
  · intro st s d doff e h
    by_cases h1 : d.len < doff
    · simp [Buffer.copy1, h1]
    · simp [Buffer.copy1, h1] at h
  · exact fun st s d doff soff e h => copy2_err st s d doff soff e h
  · intro st f e h1 h2 h3 h
    cases he : f.is_end with
    | true => simp [Fetcher.fetch, he]
    | false =>
      exfalso
      have hne : f.cursor ≠ f.blen := by
        simpa [Fetcher.is_end] using he
      have hchk : f.buf.check_access f.cursor 1 = true :=
        Buffer.check_access_true_of _ _ _ (by omega) h3
      simp [Fetcher.fetch, he, Buffer.read_uint8, hchk] at h
  · intro st f dst doff e h
    by_cases hz : dst.get_length = 0
    · simp [Fetcher.fetch_to, hz] at h
    · cases he : f.is_end with
      | true => simp [Fetcher.fetch_to, hz, he]
      | false =>
        rcases hcp : Buffer.copy2 st f.buf dst doff f.cursor with ⟨r, st1⟩
        cases r with
        | ok n => simp [Fetcher.fetch_to, hz, he, hcp] at h
        | error e2 =>
          have hst1 : st1 = st := by
            have hh := copy2_err st f.buf dst doff f.cursor e2
              (by rw [hcp])
            rw [hcp] at hh
            exact hh
          subst hst1
          simp [Fetcher.fetch_to, hz, he, hcp]
  · intro st f count e h1 h2 h3 h
    by_cases hz : count = 0
    · simp [Fetcher.fetch_bytes, hz, Buffer.create, Store.allocate] at h
    · by_cases hr : f.get_remaining_size < count
      · simp [Fetcher.fetch_bytes, hz, hr]
      · exfalso
        have hspec := fetch_bytes_spec st f count h1 h3 (by omega) (by omega)
        rw [hspec] at h
        simp at h
  · intro st f count e h
    by_cases hz : count = 0
    · simp [Fetcher.skip, hz] at h
    · cases he : f.is_end with
      | true => simp [Fetcher.skip, hz, he]
      | false =>
        by_cases hr : f.get_remaining_size < count
        · simp [Fetcher.skip, hz, he, hr]
        · simp [Fetcher.skip, hz, he, hr] at h
  · intro st q size e hinv h
    by_cases hlt : q.remaining < size
    · rw [BufferQueue.pop, if_pos hlt]
    · exfalso
      obtain ⟨st2, heq, -, -, -, -⟩ := pop_spec st q size hinv (by omega)
      rw [heq] at h
      simp at h

/-- Witness for C9: popping one byte from the empty queue fails with
OutOfRange and leaves the (empty) store and queue untouched. -/
theorem claim_C9_error_no_mutation_witness :
    (BufferQueue.pop [] BufferQueue.empty 1).2 = ([], BufferQueue.empty) :=
  claim_C9_error_no_mutation.2.2.2.2.2.2.2.2.2.2.2.2.2.2.2
    [] BufferQueue.empty 1 .overflow (by decide) rfl

/-- Claim C2: `pop(size)` fails with OutOfRange precisely when `size`
exceeds the remaining byte count (leaving everything unchanged); otherwise
it returns a fresh buffer of exactly `size` bytes holding the first `size`
unconsumed bytes of the FIFO concatenation of the segments, those bytes
are consumed, every segment the pop drains completely is removed and a
partially drained head segment is retained with its cursor advanced
(`advanceSegs` states this queue effect), and no fully drained segment is
left behind. -/
theorem claim_C2_pop_spec :
    (∀ (st : Store) (q : BufferQueue) (size : Nat),
      q.get_remaining_size < size →
      BufferQueue.pop st q size = (.error .overflow, st, q)) ∧
    (∀ (st : Store) (q : BufferQueue) (size : Nat),
      BufferQueue.QInv st q → size ≤ q.get_remaining_size →
      ∃ st2 : Store,
        BufferQueue.pop st q size =
          (.ok ⟨st.length, 0, size⟩, st2,
            ⟨q.remaining - size, advanceSegs q.queue size⟩) ∧
        Buffer.get_length ⟨st.length, 0, size⟩ = size ∧
        Buffer.bytes st2 ⟨st.length, 0, size⟩ =
          (BufferQueue.queueBytes st q).take size ∧
        BufferQueue.queueBytes st2
            ⟨q.remaining - size, advanceSegs q.queue size⟩ =
          (BufferQueue.queueBytes st q).drop size ∧
        ∀ f ∈ advanceSegs q.queue size, 0 < f.get_remaining_size) := by
  constructor
  · intro st q size hlt
    rw [BufferQueue.pop, if_pos (show q.remaining < size from hlt)]
  · intro st q size hinv hsz
    obtain ⟨st2, heq, -, hbytes, hdrop, hq⟩ := pop_spec st q size hinv hsz
    exact ⟨st2, heq, rfl, hbytes, hdrop, fun f hf => (hq.2 f hf).2⟩

/-- Witness for C2: popping 2 bytes from a queue holding the single pushed
segment `{1, 2, 3}`. -/
theorem claim_C2_pop_spec_witness :
    ∃ st2 : Store,
      BufferQueue.pop [[1, 2, 3]] ⟨3, [Fetcher.ofBuffer ⟨0, 0, 3⟩]⟩ 2 =
        (.ok ⟨1, 0, 2⟩, st2,
          ⟨3 - 2, advanceSegs [Fetcher.ofBuffer ⟨0, 0, 3⟩] 2⟩) ∧
      Buffer.get_length ⟨1, 0, 2⟩ = 2 ∧
      Buffer.bytes st2 ⟨1, 0, 2⟩ =
        (BufferQueue.queueBytes [[1, 2, 3]]
          ⟨3, [Fetcher.ofBuffer ⟨0, 0, 3⟩]⟩).take 2 ∧
      BufferQueue.queueBytes st2
          ⟨3 - 2, advanceSegs [Fetcher.ofBuffer ⟨0, 0, 3⟩] 2⟩ =
        (BufferQueue.queueBytes [[1, 2, 3]]
          ⟨3, [Fetcher.ofBuffer ⟨0, 0, 3⟩]⟩).drop 2 ∧
      ∀ f ∈ advanceSegs [Fetcher.ofBuffer ⟨0, 0, 3⟩] 2,
        0 < f.get_remaining_size :=
  claim_C2_pop_spec.2 [[1, 2, 3]] ⟨3, [Fetcher.ofBuffer ⟨0, 0, 3⟩]⟩ 2
    (by decide) (by decide)

/-- Claim C5: in every queue state reachable by any sequence of `push`,
`pop` and `pop_all` calls, `get_remaining_size()` equals the sum of the
per-segment remaining sizes, and every segment in the list has unconsumed
bytes left: a segment is removed exactly when a pop fully consumes it and
`pop` never leaves a fully drained segment in the list. -/
theorem claim_C5_queue_invariant (st : Store) (q : BufferQueue)
    (h : BufferQueue.Reach st q) :
    q.get_remaining_size = BufferQueue.sumRem q.queue ∧
    ∀ f ∈ q.queue, 0 < f.get_remaining_size := by
  have hi := reach_QInv st q h
  exact ⟨hi.1, fun f hf => (hi.2 f hf).2⟩

/-- Witness for C5: the state reached by pushing the 2-byte buffer
`{1, 2}` and popping one byte. -/
theorem claim_C5_queue_invariant_witness :
    (BufferQueue.pop (BufferQueue.push [[1, 2]] BufferQueue.empty ⟨0, 0, 2⟩).1
        (BufferQueue.push [[1, 2]] BufferQueue.empty ⟨0, 0, 2⟩).2
        1).2.2.get_remaining_size =
      BufferQueue.sumRem
        (BufferQueue.pop (BufferQueue.push [[1, 2]] BufferQueue.empty ⟨0, 0, 2⟩).1
          (BufferQueue.push [[1, 2]] BufferQueue.empty ⟨0, 0, 2⟩).2 1).2.2.queue ∧
    ∀ f ∈ (BufferQueue.pop
        (BufferQueue.push [[1, 2]] BufferQueue.empty ⟨0, 0, 2⟩).1
        (BufferQueue.push [[1, 2]] BufferQueue.empty ⟨0, 0, 2⟩).2 1).2.2.queue,
      0 < f.get_remaining_size :=
  claim_C5_queue_invariant _ _
    (BufferQueue.Reach.pop 1 (BufferQueue.Reach.push ⟨0, 0, 2⟩
      (BufferQueue.Reach.init [[1, 2]]) (by decide)))

end Xap
